import Mathlib

/-!
# Verification of the icloudgo download/reconciliation orchestrator

Shallow embedding of `icloud-photo-cli/command/command_download.go`
(`downloadPhoto`, `downloadPhotoAsset`, `autoDeletePhoto`) and of
`PhotoService.Albums` from the library.

The two orchestrators (`downloadPhoto`, `autoDeletePhoto`) spawn `threadNum`
goroutines that share one photo iterator, two atomic counters, and a plain
`finalErr` variable, and join on a `sync.WaitGroup`.  We embed each worker as
a small-step state machine: every shared-memory access of the Go worker body
(atomic counter load/add, `photoIter.Next()`, `os.Stat`, `DownloadTo`,
`os.Remove`, and the read/write of `finalErr`) is one atomic transition, and
a run is a fold of worker steps over an arbitrary finite schedule of worker
indices.  This makes every interleaving of the goroutines a schedule.
-/

namespace Icloudgo

/-- Go `error` values relevant to the commands: the distinguished
`icloudgo.ErrPhotosIterateEnd` sentinel, `os.ErrNotExist`, and any other
error (tagged by a code).  `errors.Is(err, X)` for the two sentinels is
equality with the corresponding constructor. -/
inductive GoErr where
  | iterateEnd : GoErr
  | notExist : GoErr
  | other : Nat → GoErr
  deriving DecidableEq, Repr

/-- Two's-complement wrap-around of an unbounded integer to `int32`. -/
def wrap32 (x : Int) : Int := (x + 2 ^ 31) % 2 ^ 32 - 2 ^ 31

/-- Two's-complement wrap-around of an unbounded integer to `int64`. -/
def wrap64 (x : Int) : Int := (x + 2 ^ 63) % 2 ^ 64 - 2 ^ 63

/-- A remote photo asset (`*icloudgo.PhotoAsset`): identity, display
filename, and the byte size of the original size-variant (`photo.Size()`,
a Go `int`). -/
structure PhotoAsset where
  id : String
  filename : String
  size : Int
  deriving DecidableEq, Repr

/-- The `icloudgo.PhotoVersionOriginal` size-variant constant. -/
def PhotoVersionOriginal : String := "original"

/-- Modelled from the spec: `PhotoAsset.LocalPath` lives in the icloudgo
library, outside the repository sources; §3 (LocalPathResolver) specifies a
pure function mapping (output root, asset, size-variant) to a deterministic
local filesystem path.  Any fixed injective encoding satisfies that
interface; we concatenate root, asset identity and filename. -/
def PhotoAsset.localPath (p : PhotoAsset) (outputDir : String) (version : String) : String :=
  outputDir ++ "/" ++ version ++ "-" ++ p.id ++ "-" ++ p.filename

/-- A file in the local filesystem: its size as reported by `os.Stat`, and
the outcome `os.Remove` would produce on it beyond plain success (the
environment's choice, modelling e.g. permission errors). -/
structure LocalFile where
  size : Int
  removeErr : Option GoErr
  deriving DecidableEq, Repr

/-- The local filesystem as an association list from paths to files. -/
abbrev LocalFS := List (String × LocalFile)

/-- `os.Stat`: look a path up in the filesystem. -/
def fsGet : LocalFS → String → Option LocalFile
  | [], _ => none
  | (q, f) :: rest, p => if q = p then some f else fsGet rest p

/-- Write (create or overwrite) the file at a path. -/
def fsSet : LocalFS → String → LocalFile → LocalFS
  | [], p, f => [(p, f)]
  | (q, g) :: rest, p, f => if q = p then (p, f) :: rest else (q, g) :: fsSet rest p f

/-- Delete the file at a path. -/
def fsRemove : LocalFS → String → LocalFS
  | [], _ => []
  | (q, g) :: rest, p => if q = p then fsRemove rest p else (q, g) :: fsRemove rest p

/-- One outcome of `photoIter.Next()`: either an asset or a non-end error.
The shared iterator is a finite list of such outcomes; pulling from the
empty list yields the `ErrPhotosIterateEnd` sentinel.  (§6: the iterator is
safe for concurrent `Next` calls with no duplicated or dropped items, so a
shared atomic dequeue is its faithful model.) -/
abbrev PullItem := Except GoErr PhotoAsset

instance : DecidableEq PullItem
  | Except.error e, Except.error f =>
    if h : e = f then isTrue (congrArg Except.error h)
    else isFalse (fun q => h (Except.error.inj q))
  | Except.error _, Except.ok _ => isFalse (fun q => Except.noConfusion q)
  | Except.ok _, Except.error _ => isFalse (fun q => Except.noConfusion q)
  | Except.ok a, Except.ok b =>
    if h : a = b then isTrue (congrArg Except.ok h)
    else isFalse (fun q => h (Except.ok.inj q))

/-- Read-only per-run configuration of `downloadPhoto`: output directory,
the effective `recent` cap (a Go `int`, compared through an `int32` cast),
the `stopNum` cap (`int64`), and the environment's outcome for
`photo.DownloadTo(PhotoVersionOriginal, path)` on each asset (`none` means
the download succeeds and writes the asset's bytes at the path). -/
structure DlCfg where
  outputDir : String
  recent : Int
  stopNum : Int
  fetchRes : PhotoAsset → Option GoErr

/-- Result of the body of `downloadPhotoAsset` (command_download.go:186-201):
the returned `(bool, error)` pair, the filesystem afterwards, and whether
`DownloadTo` was invoked. -/
structure AssetResult where
  isDownloaded : Bool
  err : Option GoErr
  fs : LocalFS
  didFetch : Bool
  deriving DecidableEq, Repr

/-- Direct translation of `downloadPhotoAsset` (command_download.go:186-201):
stat the resolved local path; if a file is there and its size differs from
`photo.Size()`, call `DownloadTo`; if the sizes agree, skip and report
`(true, nil)`; if no file is there, call `DownloadTo`.  A successful
`DownloadTo` overwrites the path with the asset's bytes. -/
def downloadPhotoAssetF (cfg : DlCfg) (fs : LocalFS) (photo : PhotoAsset) : AssetResult :=
  let path := photo.localPath cfg.outputDir PhotoVersionOriginal
  match fsGet fs path with
  | some f =>
    if photo.size ≠ f.size then
      match cfg.fetchRes photo with
      | some e => ⟨false, some e, fs, true⟩
      | none => ⟨false, none, fsSet fs path ⟨photo.size, none⟩, true⟩
    else
      ⟨true, none, fs, false⟩
  | none =>
    match cfg.fetchRes photo with
    | some e => ⟨false, some e, fs, true⟩
    | none => ⟨false, none, fsSet fs path ⟨photo.size, none⟩, true⟩

/-- Program counter of one `downloadPhoto` worker goroutine
(command_download.go:143-179), one value per point between two consecutive
shared-memory accesses of the loop body. -/
inductive DlPC where
  /-- About to `atomic.LoadInt32(&downloaded)` and compare with
  `int32(recent)` (line 147). -/
  | loopStart : DlPC
  /-- About to `atomic.LoadInt64(&foundDownloadedNum)` and compare with
  `stopNum` (line 150). -/
  | checkStop : DlPC
  /-- About to call `photoIter.Next()` (line 154). -/
  | pullStage : DlPC
  /-- Inside `downloadPhotoAsset`: about to `os.Stat` the resolved path
  (line 191). -/
  | statStage : PhotoAsset → DlPC
  /-- Inside `downloadPhotoAsset`: about to call `DownloadTo`
  (line 193 or 199). -/
  | fetchStage : PhotoAsset → DlPC
  /-- About to run `if finalErr != nil { finalErr = err }; return`
  (lines 159-162 or 166-169); note the guard in the source is `!= nil`. -/
  | recordErr : GoErr → DlPC
  /-- About to `atomic.AddInt64(&foundDownloadedNum, 1)` (line 171). -/
  | incFound : DlPC
  /-- About to read `foundDownloadedNum >= stopNum` (line 172). -/
  | checkFound : DlPC
  /-- About to `atomic.AddInt32(&downloaded, 1)` (line 176). -/
  | incDownloaded : DlPC
  /-- The goroutine has returned (`wait.Done()`). -/
  | done : DlPC
  deriving DecidableEq, Repr

/-- Shared state of a `downloadPhoto` run: the remaining iterator, the local
filesystem, the two counters (`downloaded : int32`,
`foundDownloadedNum : int64`), the `finalErr` slot, the program counter of
every worker, and two ghost counters recording how many `Next` pulls and
`DownloadTo` calls have happened. -/
structure DlState where
  iter : List PullItem
  fs : LocalFS
  downloaded : Int
  foundNum : Int
  finalErr : Option GoErr
  workers : List DlPC
  pullCount : Nat
  fetchCount : Nat
  deriving DecidableEq, Repr

/-- Replace worker `i`'s program counter. -/
def dlSetPC (s : DlState) (i : Nat) (pc : DlPC) : DlState :=
  { s with workers := s.workers.set i pc }

/-- One atomic step of worker `i` of `downloadPhoto`
(command_download.go:146-178).  A worker that has returned, or an index with
no worker, leaves the state unchanged. -/
def dlStep (cfg : DlCfg) (s : DlState) (i : Nat) : DlState :=
  match s.workers[i]? with
  | none => s
  | some DlPC.loopStart =>
    if s.downloaded ≥ wrap32 cfg.recent then dlSetPC s i DlPC.done
    else dlSetPC s i DlPC.checkStop
  | some DlPC.checkStop =>
    if s.foundNum ≥ cfg.stopNum then dlSetPC s i DlPC.done
    else dlSetPC s i DlPC.pullStage
  | some DlPC.pullStage =>
    match s.iter with
    | [] => dlSetPC s i DlPC.done
    | Except.error e :: rest =>
      dlSetPC { s with iter := rest, pullCount := s.pullCount + 1 } i (DlPC.recordErr e)
    | Except.ok a :: rest =>
      dlSetPC { s with iter := rest, pullCount := s.pullCount + 1 } i (DlPC.statStage a)
  | some (DlPC.statStage a) =>
    match fsGet s.fs (a.localPath cfg.outputDir PhotoVersionOriginal) with
    | some f =>
      if a.size ≠ f.size then dlSetPC s i (DlPC.fetchStage a)
      else dlSetPC s i DlPC.incFound
    | none => dlSetPC s i (DlPC.fetchStage a)
  | some (DlPC.fetchStage a) =>
    match cfg.fetchRes a with
    | some e =>
      dlSetPC { s with fetchCount := s.fetchCount + 1 } i (DlPC.recordErr e)
    | none =>
      dlSetPC { s with
        fs := fsSet s.fs (a.localPath cfg.outputDir PhotoVersionOriginal) ⟨a.size, none⟩,
        fetchCount := s.fetchCount + 1 } i DlPC.incDownloaded
  | some (DlPC.recordErr e) =>
    dlSetPC { s with finalErr := if s.finalErr ≠ none then some e else s.finalErr } i DlPC.done
  | some DlPC.incFound =>
    dlSetPC { s with foundNum := wrap64 (s.foundNum + 1) } i DlPC.checkFound
  | some DlPC.checkFound =>
    if s.foundNum ≥ cfg.stopNum then dlSetPC s i DlPC.done
    else dlSetPC s i DlPC.loopStart
  | some DlPC.incDownloaded =>
    dlSetPC { s with downloaded := wrap32 (s.downloaded + 1) } i DlPC.loopStart
  | some DlPC.done => s

/-- Run the worker pool under a schedule: each entry names the worker that
performs the next atomic step. -/
def dlRun (cfg : DlCfg) (sched : List Nat) (s : DlState) : DlState :=
  sched.foldl (dlStep cfg) s

/-- Every spawned worker has returned (`wait.Wait()` would unblock). -/
def dlAllDone (s : DlState) : Bool :=
  s.workers.all (fun pc => pc = DlPC.done)

/-- Initial state of the worker phase of `downloadPhoto`
(command_download.go:136-141): fresh iterator, counters at zero, `finalErr`
nil, `threadNum` workers at the top of their loop. -/
def dlInit (iter : List PullItem) (fs : LocalFS) (threadNum : Nat) : DlState :=
  ⟨iter, fs, 0, 0, none, List.replicate threadNum DlPC.loopStart, 0, 0⟩

/-- The value `downloadPhoto` returns from its worker phase: after
`wait.Wait()` (all workers done) it returns `finalErr`
(command_download.go:181-183); under a schedule too short to finish the run
there is no return value yet. -/
def dlResult (cfg : DlCfg) (sched : List Nat) (s : DlState) : Option (Option GoErr) :=
  let t := dlRun cfg sched s
  if dlAllDone t then some t.finalErr else none

/-- Program counter of one `autoDeletePhoto` worker goroutine
(command_download.go:216-245). -/
inductive DelPC where
  /-- About to call `photoIter.Next()` (line 220). -/
  | pullStage : DelPC
  /-- About to call `os.Remove` on the asset's resolved path (line 233). -/
  | removeStage : PhotoAsset → DelPC
  /-- About to run `if finalErr == nil { finalErr = err }; return` for a
  pull error (lines 225-228); note this guard in the source is `== nil`. -/
  | recordPullErr : GoErr → DelPC
  /-- About to run `if finalErr != nil { finalErr = err }; return` for a
  removal error (lines 237-240); note this guard in the source is `!= nil`. -/
  | recordRmErr : GoErr → DelPC
  /-- The goroutine has returned (`wait.Done()`). -/
  | done : DelPC
  deriving DecidableEq, Repr

/-- Shared state of an `autoDeletePhoto` run. -/
structure DelState where
  iter : List PullItem
  fs : LocalFS
  finalErr : Option GoErr
  workers : List DelPC
  pullCount : Nat
  deriving DecidableEq, Repr

/-- Replace worker `i`'s program counter. -/
def delSetPC (s : DelState) (i : Nat) (pc : DelPC) : DelState :=
  { s with workers := s.workers.set i pc }

/-- One atomic step of worker `i` of `autoDeletePhoto`
(command_download.go:219-244).  `os.Remove` on an absent path yields
`os.ErrNotExist`, which the worker treats as `continue`; a present file is
removed unless the environment dictates some other removal error. -/
def delStep (outputDir : String) (s : DelState) (i : Nat) : DelState :=
  match s.workers[i]? with
  | none => s
  | some DelPC.pullStage =>
    match s.iter with
    | [] => delSetPC s i DelPC.done
    | Except.error e :: rest =>
      delSetPC { s with iter := rest, pullCount := s.pullCount + 1 } i (DelPC.recordPullErr e)
    | Except.ok a :: rest =>
      delSetPC { s with iter := rest, pullCount := s.pullCount + 1 } i (DelPC.removeStage a)
  | some (DelPC.removeStage a) =>
    match fsGet s.fs (a.localPath outputDir PhotoVersionOriginal) with
    | none => delSetPC s i DelPC.pullStage
    | some f =>
      match f.removeErr with
      | some e => delSetPC s i (DelPC.recordRmErr e)
      | none =>
        delSetPC { s with fs := fsRemove s.fs (a.localPath outputDir PhotoVersionOriginal) }
          i DelPC.pullStage
  | some (DelPC.recordPullErr e) =>
    delSetPC { s with finalErr := if s.finalErr = none then some e else s.finalErr } i DelPC.done
  | some (DelPC.recordRmErr e) =>
    delSetPC { s with finalErr := if s.finalErr ≠ none then some e else s.finalErr } i DelPC.done
  | some DelPC.done => s

/-- Run the delete worker pool under a schedule. -/
def delRun (outputDir : String) (sched : List Nat) (s : DelState) : DelState :=
  sched.foldl (delStep outputDir) s

/-- Every spawned delete worker has returned. -/
def delAllDone (s : DelState) : Bool :=
  s.workers.all (fun pc => pc = DelPC.done)

/-- Initial state of the worker phase of `autoDeletePhoto`
(command_download.go:211-214). -/
def delInit (iter : List PullItem) (fs : LocalFS) (threadNum : Nat) : DelState :=
  ⟨iter, fs, none, List.replicate threadNum DelPC.pullStage, 0⟩

/-- The value `autoDeletePhoto` returns from its worker phase: `finalErr`,
available only once `wait.Wait()` has unblocked
(command_download.go:247-249). -/
def delResult (outputDir : String) (sched : List Nat) (s : DelState) : Option (Option GoErr) :=
  let t := delRun outputDir sched s
  if delAllDone t then some t.finalErr else none

/-- `folderTypeValue`: a typed query value (the `Value` is used as a
string). -/
structure FolderTypeValue where
  type : String
  value : String
  deriving DecidableEq, Repr

/-- `folderMetaDataQueryFilter`. -/
structure FolderQueryFilter where
  fieldName : String
  comparator : String
  fieldValue : FolderTypeValue
  deriving DecidableEq, Repr

/-- `folderMetaData`: the static per-collection query parameters. -/
structure FolderMetaData where
  listType : String
  objType : String
  direction : String
  queryFilter : List FolderQueryFilter
  deriving DecidableEq, Repr

/-- The attribute part of `PhotoAlbum` (the `service` back-pointer carries
no data): name, query parameters, and the cache fields `_pageSize` and
`_length`. -/
structure PhotoAlbum where
  name : String
  listType : String
  objType : String
  direction : String
  queryFilter : List FolderQueryFilter
  pageSize : Int
  length : Option Int
  deriving DecidableEq, Repr

/-- One record returned by `r.getFolders()`: its `RecordName`, and the
`AlbumNameEnc` / `IsDeleted` fields (`none` models a nil field pointer). -/
structure Folder where
  recordName : String
  albumNameEnc : Option String
  isDeleted : Option String
  deriving DecidableEq, Repr

/-- Insert-or-overwrite into an association list, modelling Go map
assignment `m[k] = v`. -/
def mapSet {β : Type} : List (String × β) → String → β → List (String × β)
  | [], k, v => [(k, v)]
  | (q, w) :: rest, k, v =>
    if q = k then (k, v) :: rest else (q, w) :: mapSet rest k v

/-- The constant `icloudPhotoFolderMeta` table (part_000:111-216), in source
order. -/
def icloudPhotoFolderMeta : List (String × FolderMetaData) :=
  [("All Photos",
    ⟨"CPLAssetAndMasterByAddedDate", "CPLAssetByAddedDate", "ASCENDING", []⟩),
   ("Time-lapse",
    ⟨"CPLAssetAndMasterInSmartAlbumByAssetDate",
     "CPLAssetInSmartAlbumByAssetDate:Timelapse", "ASCENDING",
     [⟨"smartAlbum", "EQUALS", ⟨"STRING", "TIMELAPSE"⟩⟩]⟩),
   ("Videos",
    ⟨"CPLAssetAndMasterInSmartAlbumByAssetDate",
     "CPLAssetInSmartAlbumByAssetDate:Video", "ASCENDING",
     [⟨"smartAlbum", "EQUALS", ⟨"STRING", "VIDEO"⟩⟩]⟩),
   ("Slo-mo",
    ⟨"CPLAssetAndMasterInSmartAlbumByAssetDate",
     "CPLAssetInSmartAlbumByAssetDate:Slomo", "ASCENDING",
     [⟨"smartAlbum", "EQUALS", ⟨"STRING", "SLOMO"⟩⟩]⟩),
   ("Bursts",
    ⟨"CPLBurstStackAssetAndMasterByAssetDate",
     "CPLAssetBurstStackAssetByAssetDate", "ASCENDING", []⟩),
   ("Favorites",
    ⟨"CPLAssetAndMasterInSmartAlbumByAssetDate",
     "CPLAssetInSmartAlbumByAssetDate:Favorite", "ASCENDING",
     [⟨"smartAlbum", "EQUALS", ⟨"STRING", "FAVORITE"⟩⟩]⟩),
   ("Panoramas",
    ⟨"CPLAssetAndMasterInSmartAlbumByAssetDate",
     "CPLAssetInSmartAlbumByAssetDate:Panorama", "ASCENDING",
     [⟨"smartAlbum", "EQUALS", ⟨"STRING", "PANORAMA"⟩⟩]⟩),
   ("Screenshots",
    ⟨"CPLAssetAndMasterInSmartAlbumByAssetDate",
     "CPLAssetInSmartAlbumByAssetDate:Screenshot", "ASCENDING",
     [⟨"smartAlbum", "EQUALS", ⟨"STRING", "SCREENSHOT"⟩⟩]⟩),
   ("Live",
    ⟨"CPLAssetAndMasterInSmartAlbumByAssetDate",
     "CPLAssetInSmartAlbumByAssetDate:Live", "ASCENDING",
     [⟨"smartAlbum", "EQUALS", ⟨"STRING", "LIVE"⟩⟩]⟩),
   ("Recently Deleted",
    ⟨"CPLAssetAndMasterDeletedByExpungedDate",
     "CPLAssetDeletedByExpungedDate", "ASCENDING", []⟩),
   ("Hidden",
    ⟨"CPLAssetAndMasterHiddenByAssetDate",
     "CPLAssetHiddenByAssetDate", "ASCENDING", []⟩)]

/-- The mutable part of `PhotoService` seen by `Albums`: the `_albums`
cache, where the empty list models a nil map. -/
structure PhotoService where
  albumsCache : List (String × PhotoAlbum)
  deriving DecidableEq, Repr

/-- Environment of one `Albums` call: the outcome of the remote
`r.getFolders()` query, and `base64.StdEncoding.DecodeString` (whose error
the source discards; decoding failures surface as the empty string). -/
structure AlbumsEnv where
  getFolders : Except GoErr (List Folder)
  b64decode : String → String

/-- The static-table pass of `Albums` (part_000:47-62): one `PhotoAlbum`
per `icloudPhotoFolderMeta` entry. -/
def buildMetaAlbums : List (String × PhotoAlbum) :=
  icloudPhotoFolderMeta.foldl
    (fun tmp nameProps =>
      mapSet tmp nameProps.1
        ⟨nameProps.1, nameProps.2.listType, nameProps.2.objType,
         nameProps.2.direction, nameProps.2.queryFilter, 100, none⟩)
    []

/-- The folders pass of `Albums` (part_000:69-102): skip folders with a
nil/empty encoded name, deleted folders, and the root folder; decode the
name; skip empty decodes; insert a `PhotoAlbum` keyed by the decoded
name. -/
def addFolderAlbum (env : AlbumsEnv) (tmp : List (String × PhotoAlbum))
    (folder : Folder) : List (String × PhotoAlbum) :=
  match folder.albumNameEnc with
  | none => tmp
  | some enc =>
    if enc = "" then tmp
    else if (match folder.isDeleted with
             | some d => decide (d ≠ "")
             | none => false) then tmp
    else if folder.recordName = "----Root-Folder----" then tmp
    else
      let folderID := folder.recordName
      let folderObjType := "CPLContainerRelationNotDeletedByAssetDate:" ++ folderID
      let folderName := env.b64decode enc
      if folderName.length = 0 then tmp
      else
        mapSet tmp folderName
          ⟨folderName, "CPLContainerRelationLiveByAssetDate", folderObjType,
           "ASCENDING",
           [⟨"parentId", "EQUALS", ⟨"STRING", folderID⟩⟩], 100, none⟩

/-- Translation of `PhotoService.Albums` (part_000:38-109).  Returns the
`(map, error)` result, the service state afterwards, and whether the remote
`getFolders` query was issued. -/
def PhotoService.Albums (env : AlbumsEnv) (r : PhotoService) :
    Except GoErr (List (String × PhotoAlbum)) × PhotoService × Bool :=
  if r.albumsCache.length ≠ 0 then
    (Except.ok r.albumsCache, r, false)
  else
    let tmp := buildMetaAlbums
    match env.getFolders with
    | Except.error e => (Except.error e, r, true)
    | Except.ok folders =>
      let tmp2 := folders.foldl (addFolderAlbum env) tmp
      let r2 : PhotoService := { albumsCache := tmp2 }
      (Except.ok r2.albumsCache, r2, true)

/-- Worker `i` has returned (or does not exist). -/
def dlDoneAt (i : Nat) (s : DlState) : Prop :=
  ∀ pc : DlPC, s.workers[i]? = some pc → pc = DlPC.done

instance (i : Nat) (s : DlState) : Decidable (dlDoneAt i s) := by
  unfold dlDoneAt
  cases s.workers[i]? with
  | none => exact isTrue (fun pc h => by cases h)
  | some pc =>
    by_cases h : pc = DlPC.done
    · exact isTrue (fun pc' h' => by cases h'; exact h)
    · exact isFalse (fun q => h (q pc rfl))

/-- Intra-iteration weight of a worker program counter, for the termination
measure. -/
def dlW : DlPC → Nat
  | DlPC.loopStart => 3
  | DlPC.checkStop => 2
  | DlPC.pullStage => 1
  | DlPC.statStage _ => 7
  | DlPC.fetchStage _ => 6
  | DlPC.recordErr _ => 4
  | DlPC.incFound => 6
  | DlPC.checkFound => 5
  | DlPC.incDownloaded => 5
  | DlPC.done => 0

/-- Termination measure of worker `i`: every loop iteration consumes one
iterator item, and between pulls the weight strictly decreases. -/
def dlMeasure (i : Nat) (s : DlState) : Nat :=
  match s.workers[i]? with
  | none => 0
  | some pc => 8 * s.iter.length + dlW pc

/-- Delete worker `i` has returned (or does not exist). -/
def delDoneAt (i : Nat) (s : DelState) : Prop :=
  ∀ pc : DelPC, s.workers[i]? = some pc → pc = DelPC.done

/-- Intra-iteration weight for the delete worker measure. -/
def delW : DelPC → Nat
  | DelPC.pullStage => 1
  | DelPC.removeStage _ => 3
  | DelPC.recordPullErr _ => 2
  | DelPC.recordRmErr _ => 2
  | DelPC.done => 0

/-- Termination measure of delete worker `i`. -/
def delMeasure (i : Nat) (s : DelState) : Nat :=
  match s.workers[i]? with
  | none => 0
  | some pc => 8 * s.iter.length + delW pc

/-! ## Concrete fixtures used by witnesses and counterexample runs -/

/-- Configuration for a run whose iterator pull fails (non-end error). -/
def c1cfgPull : DlCfg := ⟨"./iCloudPhotos", 100, 50, fun _ => none⟩

/-- Configuration under which every `DownloadTo` fails. -/
def c1cfgFetch : DlCfg := ⟨"./iCloudPhotos", 100, 50, fun _ => some (GoErr.other 9)⟩

def c1asset : PhotoAsset := ⟨"A1", "a1.heic", 2048⟩

def c2asset : PhotoAsset := ⟨"D1", "d1.heic", 512⟩

/-- A local filesystem whose single file produces a non-`ErrNotExist`
removal error (e.g. a permission failure). -/
def c2fs : LocalFS :=
  [(c2asset.localPath "./iCloudPhotos" PhotoVersionOriginal, ⟨512, some (GoErr.other 11)⟩)]

def c10EnvA : AlbumsEnv := ⟨Except.ok [], fun x => x⟩

def c10EnvB : AlbumsEnv := ⟨Except.error (GoErr.other 3), fun x => x⟩

/-- Run invariant when `stopNum <= 0`: nothing has happened — the iterator
is untouched, the counters are zero, no fetch or pull was made, and every
worker is still at (or before) its first stop-condition checks, or done. -/
def c9Inv (iter : List PullItem) (s : DlState) : Prop :=
  s.iter = iter ∧ s.pullCount = 0 ∧ s.fetchCount = 0 ∧ s.finalErr = none ∧
  s.downloaded = 0 ∧ s.foundNum = 0 ∧
  ∀ (i : Nat) (pc : DlPC), s.workers[i]? = some pc →
    pc = DlPC.loopStart ∨ pc = DlPC.checkStop ∨ pc = DlPC.done

def c9cfg : DlCfg := ⟨"./iCloudPhotos", 5, 0, fun _ => none⟩

def c9iter : List PullItem := [Except.ok c1asset]

/-- Per-worker classification for an `autoDeletePhoto` run over an iterator
of assets whose local files are all absent: a worker only ever holds an
absent asset, and never reaches an error-recording point. -/
def c6pcOK (outputDir : String) (fs0 : LocalFS) : DelPC → Prop
  | DelPC.pullStage => True
  | DelPC.removeStage a => fsGet fs0 (a.localPath outputDir PhotoVersionOriginal) = none
  | DelPC.recordPullErr _ => False
  | DelPC.recordRmErr _ => False
  | DelPC.done => True

/-- Run invariant for C6: the filesystem never changes, no error is ever
recorded, pulls account for the consumed iterator, all remaining items are
ok assets with absent local files, and a worker is done only once the
shared iterator is exhausted. -/
def c6Inv (outputDir : String) (fs0 : LocalFS) (M : Nat) (s : DelState) : Prop :=
  s.fs = fs0 ∧ s.finalErr = none ∧
  s.pullCount + s.iter.length = M ∧
  (∀ x ∈ s.iter, ∃ a : PhotoAsset, x = Except.ok a ∧
      fsGet fs0 (a.localPath outputDir PhotoVersionOriginal) = none) ∧
  (∀ (i : Nat) (pc : DelPC), s.workers[i]? = some pc → c6pcOK outputDir fs0 pc) ∧
  (∀ i : Nat, s.workers[i]? = some DelPC.done → s.iter = [])

/-- Outstanding-work weight of a worker program counter: 1 while the worker
has pulled an asset whose terminal counter increment
(`downloaded` or `foundDownloadedNum`) has not yet landed. -/
def c5r : DlPC → Nat
  | DlPC.loopStart => 0
  | DlPC.checkStop => 0
  | DlPC.pullStage => 0
  | DlPC.statStage _ => 1
  | DlPC.fetchStage _ => 1
  | DlPC.recordErr _ => 0
  | DlPC.incFound => 1
  | DlPC.checkFound => 0
  | DlPC.incDownloaded => 1
  | DlPC.done => 0

/-- Per-worker classification for a failure-free `downloadPhoto` run: held
assets come from the given collection and no worker ever reaches the
error-recording point. -/
def c5pcOK (assets : List PhotoAsset) : DlPC → Prop
  | DlPC.statStage a => a ∈ assets
  | DlPC.fetchStage a => a ∈ assets
  | DlPC.recordErr _ => False
  | _ => True

/-- Run invariant for C5: the remaining iterator is the unconsumed suffix of
the collection, and every pulled asset is accounted for by `downloaded`,
`foundDownloadedNum`, or exactly one worker still processing it. -/
def c5Inv (assets : List PhotoAsset) (s : DlState) : Prop :=
  s.iter = (assets.drop s.pullCount).map Except.ok ∧
  s.pullCount ≤ assets.length ∧
  s.downloaded + s.foundNum + ((s.workers.map c5r).sum : Int) = (s.pullCount : Int) ∧
  0 ≤ s.downloaded ∧ 0 ≤ s.foundNum ∧
  s.finalErr = none ∧
  (∀ (i : Nat) (pc : DlPC), s.workers[i]? = some pc → c5pcOK assets pc) ∧
  (∀ i : Nat, s.workers[i]? = some DlPC.done → s.iter = [])

def c5cfg : DlCfg := ⟨"./iCloudPhotos", 3, 5, fun _ => none⟩

/-- Gate weight: 1 once a worker has passed the `downloaded >= int32(recent)`
check of the current loop iteration and has not yet looped back or
returned. -/
def dlPast : DlPC → Nat
  | DlPC.loopStart => 0
  | DlPC.done => 0
  | _ => 1

/-- Weight marking a worker whose fetch has completed but whose
`atomic.AddInt32(&downloaded, 1)` has not yet landed. -/
def dlIncW : DlPC → Nat
  | DlPC.incDownloaded => 1
  | _ => 0

/-- Per-worker classification for a fetch-failure-free run: held assets
fetch successfully and no worker reaches the error-recording point. -/
def c3pcOK (cfg : DlCfg) : DlPC → Prop
  | DlPC.statStage a => cfg.fetchRes a = none
  | DlPC.fetchStage a => cfg.fetchRes a = none
  | DlPC.recordErr _ => False
  | _ => True

/-- Run invariant for C3: each worker passes the `downloaded` gate only
while `downloaded < recent`, so `downloaded` plus the number of workers past
the gate never exceeds `recent + threadNum - 1`, and every `DownloadTo` call
is accounted for by `downloaded` or by a worker one step before its
increment. -/
def c3Inv (cfg : DlCfg) (threadNum : Nat) (s : DlState) : Prop :=
  s.workers.length = threadNum ∧
  0 ≤ s.downloaded ∧
  s.downloaded + ((s.workers.map dlPast).sum : Int) ≤ cfg.recent + threadNum - 1 ∧
  (s.fetchCount : Int) = s.downloaded + ((s.workers.map dlIncW).sum : Int) ∧
  s.finalErr = none ∧
  (∀ x ∈ s.iter, ∃ a : PhotoAsset, x = Except.ok a ∧ cfg.fetchRes a = none) ∧
  (∀ (i : Nat) (pc : DlPC), s.workers[i]? = some pc → c3pcOK cfg pc)

def c3cfg : DlCfg := ⟨"./iCloudPhotos", 1, 50, fun _ => none⟩

def c3assetB : PhotoAsset := ⟨"B1", "b1.heic", 4096⟩

/-- The 2MB asset A of the concrete scenario. -/
def c7assetA : PhotoAsset := ⟨"A", "a.heic", 2097152⟩

/-- The 1MB asset B of the concrete scenario, present locally. -/
def c7assetB : PhotoAsset := ⟨"B", "b.heic", 1048576⟩

/-- Concrete scenario configuration: effective recent cap 2 (the album
size), default `stop-found-num` 50 — neither cap is reachable in this run —
and all fetches succeed. -/
def c7cfg : DlCfg := ⟨"./iCloudPhotos", 2, 50, fun _ => none⟩

/-- Concrete scenario local store: only B's file, at B's size. -/
def c7fs : LocalFS :=
  [(c7assetB.localPath "./iCloudPhotos" PhotoVersionOriginal, ⟨1048576, none⟩)]

def c7init : DlState := dlInit [Except.ok c7assetA, Except.ok c7assetB] c7fs 1

/-- All 16 states of the single-worker concrete run, in step order. -/
def c7chain : List DlState :=
  (List.range 16).map (fun n => dlRun c7cfg (List.replicate n 0) c7init)

/-- A two-worker state used to instantiate the locality properties: worker 0
is about to record its own error, worker 1 is at the top of its loop. -/
def c8s : DlState :=
  ⟨[], [], 0, 0, none, [DlPC.recordErr (GoErr.other 1), DlPC.loopStart], 0, 0⟩

/-! ## Generic list and schedule lemmas -/

theorem wrap32Id (x : Int) (h0 : 0 ≤ x) (h1 : x < 2 ^ 31) : wrap32 x = x := by
  unfold wrap32
  omega

theorem wrap64Id (x : Int) (h0 : 0 ≤ x) (h1 : x < 2 ^ 63) : wrap64 x = x := by
  unfold wrap64
  omega

theorem sumMapGe {α : Type} (f : α → Nat) :
    ∀ (l : List α) (i : Nat) (x : α), l[i]? = some x → f x ≤ (l.map f).sum := by
  intro l
  induction l with
  | nil => intro i x h; simp at h
  | cons hd tl ih =>
    intro i x h
    cases i with
    | zero =>
      simp only [List.getElem?_cons_zero, Option.some_inj] at h
      subst h
      simp only [List.map_cons, List.sum_cons]
      omega
    | succ j =>
      simp only [List.getElem?_cons_succ] at h
      have := ih j x h
      simp only [List.map_cons, List.sum_cons]
      omega

theorem listDropNil {α : Type} :
    ∀ (l : List α) (n : Nat), l.length ≤ n → l.drop n = [] := by
  intro l
  induction l with
  | nil => intro n _; simp
  | cons hd tl ih =>
    intro n h
    cases n with
    | zero => simp at h
    | succ m => simpa using ih m (by simpa using h)

theorem listDropSucc {α : Type} :
    ∀ (l : List α) (n : Nat) (a : α) (rest : List α),
      l.drop n = a :: rest → l.drop (n + 1) = rest := by
  intro l
  induction l with
  | nil => intro n a rest h; simp at h
  | cons hd tl ih =>
    intro n a rest h
    cases n with
    | zero =>
      simp only [List.drop] at h ⊢
      cases h
      rfl
    | succ m =>
      simp only [List.drop] at h ⊢
      exact ih m a rest h

theorem listDropMemHead {α : Type} :
    ∀ (l : List α) (n : Nat) (a : α) (rest : List α),
      l.drop n = a :: rest → a ∈ l := by
  intro l
  induction l with
  | nil => intro n a rest h; simp at h
  | cons hd tl ih =>
    intro n a rest h
    cases n with
    | zero =>
      simp only [List.drop] at h
      rw [h]
      exact List.mem_cons_self a rest
    | succ m =>
      simp only [List.drop] at h
      exact List.mem_cons_of_mem hd (ih m a rest h)

theorem listGetSetSelf {α : Type} :
    ∀ (l : List α) (i : Nat) (x : α), i < l.length → (l.set i x)[i]? = some x := by
  intro l
  induction l with
  | nil => intro i x h; simp at h
  | cons hd tl ih =>
    intro i x h
    cases i with
    | zero => simp
    | succ j =>
      simp only [List.set]
      simpa using ih j x (by simpa using h)

theorem listGetSetOther {α : Type} :
    ∀ (l : List α) (i j : Nat) (x : α), i ≠ j → (l.set i x)[j]? = l[j]? := by
  intro l
  induction l with
  | nil => intro i j x _; simp
  | cons hd tl ih =>
    intro i j x h
    cases i with
    | zero =>
      cases j with
      | zero => exact absurd rfl h
      | succ k => simp
    | succ i' =>
      cases j with
      | zero => simp
      | succ k =>
        simp only [List.set]
        simpa using ih i' k x (by omega)

theorem sumMapSet {α : Type} (f : α → Nat) :
    ∀ (l : List α) (i : Nat) (x old : α), l[i]? = some old →
      ((l.set i x).map f).sum + f old = (l.map f).sum + f x := by
  intro l
  induction l with
  | nil => intro i x old h; simp at h
  | cons hd tl ih =>
    intro i x old h
    cases i with
    | zero =>
      simp only [List.getElem?_cons_zero, Option.some_inj] at h
      subst h
      simp [List.set]
      omega
    | succ j =>
      simp only [List.getElem?_cons_succ] at h
      have hih := ih j x old h
      simp only [List.set, List.map_cons, List.sum_cons]
      omega

theorem sumMapLeLength {α : Type} (f : α → Nat) (hf : ∀ x, f x ≤ 1) :
    ∀ l : List α, (l.map f).sum ≤ l.length := by
  intro l
  induction l with
  | nil => simp
  | cons hd tl ih =>
    simp only [List.map_cons, List.sum_cons, List.length_cons]
    have := hf hd
    omega

theorem sumMapLeLengthSub {α : Type} (f : α → Nat) (hf : ∀ x, f x ≤ 1) :
    ∀ (l : List α) (i : Nat) (x : α), l[i]? = some x → f x = 0 →
      (l.map f).sum + 1 ≤ l.length := by
  intro l
  induction l with
  | nil => intro i x h _; simp at h
  | cons hd tl ih =>
    intro i x h hx
    cases i with
    | zero =>
      simp only [List.getElem?_cons_zero, Option.some_inj] at h
      subst h
      simp only [List.map_cons, List.sum_cons, List.length_cons, hx]
      have := sumMapLeLength f hf tl
      omega
    | succ j =>
      simp only [List.getElem?_cons_succ] at h
      have := ih j x h hx
      simp only [List.map_cons, List.sum_cons, List.length_cons]
      have hhd := hf hd
      omega

theorem sumMapMono {α : Type} (f g : α → Nat) (h : ∀ x, f x ≤ g x) :
    ∀ l : List α, (l.map f).sum ≤ (l.map g).sum := by
  intro l
  induction l with
  | nil => simp
  | cons hd tl ih =>
    simp only [List.map_cons, List.sum_cons]
    have := h hd
    omega

theorem sumMapZero {α : Type} (f : α → Nat) :
    ∀ l : List α, (∀ x ∈ l, f x = 0) → (l.map f).sum = 0 := by
  intro l
  induction l with
  | nil => simp
  | cons hd tl ih =>
    intro h
    simp only [List.map_cons, List.sum_cons]
    rw [h hd (by simp), ih (fun x hx => h x (by simp [hx]))]

theorem listSetOutOfRange {α : Type} :
    ∀ (l : List α) (i : Nat) (x : α), l.length ≤ i → l.set i x = l := by
  intro l
  induction l with
  | nil => intro i x _; rfl
  | cons hd tl ih =>
    intro i x h
    cases i with
    | zero => simp at h
    | succ j =>
      simp only [List.set]
      rw [ih j x (by simpa using h)]

theorem listGetSetCases {α : Type} (l : List α) (i j : Nat) (x y : α)
    (h : (l.set i x)[j]? = some y) : y = x ∨ l[j]? = some y := by
  by_cases hij : i = j
  · subst hij
    by_cases hlen : i < l.length
    · rw [listGetSetSelf _ _ _ hlen] at h
      left
      exact (Option.some_inj.mp h).symm
    · right
      rw [← h, listSetOutOfRange _ _ _ (by omega)]
  · right
    rw [← h, listGetSetOther _ _ _ _ hij]

/-- A pointwise property of worker program counters survives replacing one
slot by a counter that satisfies it. -/
theorem pcSetCases {α : Type} (P : α → Prop) (l : List α) (i : Nat) (x : α)
    (hx : P x) (hl : ∀ (j : Nat) (y : α), l[j]? = some y → P y) :
    ∀ (j : Nat) (y : α), (l.set i x)[j]? = some y → P y := by
  intro j y h
  rcases listGetSetCases l i j x y h with rfl | hold
  · exact hx
  · exact hl j y hold

theorem listGetReplicate {α : Type} :
    ∀ (n i : Nat) (a x : α), (List.replicate n a)[i]? = some x → x = a := by
  intro n
  induction n with
  | zero => intro i a x h; simp [List.replicate] at h
  | succ m ih =>
    intro i a x h
    cases i with
    | zero =>
      simp [List.replicate] at h
      exact h.symm
    | succ j =>
      simp only [List.replicate, List.getElem?_cons_succ] at h
      exact ih j a x h

theorem listGetOfLt {α : Type} :
    ∀ (l : List α) (i : Nat), i < l.length → ∃ x, l[i]? = some x := by
  intro l
  induction l with
  | nil => intro i h; simp at h
  | cons hd tl ih =>
    intro i h
    cases i with
    | zero => exact ⟨hd, by simp⟩
    | succ j =>
      obtain ⟨x, hx⟩ := ih j (by simpa using h)
      exact ⟨x, by simpa using hx⟩

theorem listGetMem {α : Type} :
    ∀ (l : List α) (i : Nat) (x : α), l[i]? = some x → x ∈ l := by
  intro l
  induction l with
  | nil => intro i x h; simp at h
  | cons hd tl ih =>
    intro i x h
    cases i with
    | zero =>
      simp only [List.getElem?_cons_zero, Option.some_inj] at h
      simp [h]
    | succ j =>
      simp only [List.getElem?_cons_succ] at h
      exact List.mem_cons_of_mem hd (ih j x h)

/-- An invariant preserved by every single worker step is preserved by every
schedule. -/
theorem schedInvariant {S : Type} (f : S → Nat → S) (Inv : S → Prop)
    (h : ∀ s i, Inv s → Inv (f s i)) :
    ∀ (sched : List Nat) (s : S), Inv s → Inv (sched.foldl f s) := by
  intro sched
  induction sched with
  | nil => intro s hs; simpa using hs
  | cons i rest ih =>
    intro s hs
    simpa using ih (f s i) (h s i hs)

/-- A worker whose pending steps strictly decrease a natural measure reaches
its terminal predicate when scheduled alone long enough. -/
theorem soloTermination {S : Type} (f : S → Nat → S) (D : Nat → S → Prop)
    (μ : Nat → S → Nat) (i : Nat)
    (hdec : ∀ s, ¬ D i s → μ i (f s i) < μ i s) :
    ∀ s, ∃ n : Nat, D i ((List.replicate n i).foldl f s) := by
  have key : ∀ (m : Nat) (s : S), μ i s ≤ m →
      ∃ n : Nat, D i ((List.replicate n i).foldl f s) := by
    intro m
    induction m with
    | zero =>
      intro s hm
      by_cases h : D i s
      · exact ⟨0, by simpa using h⟩
      · have := hdec s h
        omega
    | succ m ih =>
      intro s hm
      by_cases h : D i s
      · exact ⟨0, by simpa using h⟩
      · have hd := hdec s h
        obtain ⟨n, hn⟩ := ih (f s i) (by omega)
        refine ⟨n + 1, ?_⟩
        simpa [List.replicate_succ] using hn
  intro s
  exact key (μ i s) s le_rfl

/-- If each worker, run alone, reaches its terminal predicate, and terminal
predicates are stable under every step, then some schedule drives all of the
first `P` workers to their terminal predicates. -/
theorem existsAllDoneSched {S : Type} (f : S → Nat → S) (D : Nat → S → Prop)
    (μ : Nat → S → Nat)
    (hdec : ∀ i s, ¬ D i s → μ i (f s i) < μ i s)
    (hstable : ∀ i j s, D i s → D i (f s j)) :
    ∀ (P : Nat) (s : S), ∃ sched : List Nat, ∀ i, i < P → D i (sched.foldl f s) := by
  intro P
  induction P with
  | zero => intro s; exact ⟨[], by omega⟩
  | succ P ih =>
    intro s
    obtain ⟨sd, hsd⟩ := ih s
    obtain ⟨n, hn⟩ := soloTermination f D μ P (hdec P) (sd.foldl f s)
    refine ⟨sd ++ List.replicate n P, ?_⟩
    intro i hi
    rw [List.foldl_append]
    by_cases hip : i < P
    · exact schedInvariant f (D i) (fun t j ht => hstable i j t ht)
        (List.replicate n P) (sd.foldl f s) (hsd i hip)
    · have : i = P := by omega
      subst this
      exact hn

/-! ## Step equations and basic lemmas for the download machine -/

theorem listGetLtLength {α : Type} :
    ∀ (l : List α) (i : Nat) (x : α), l[i]? = some x → i < l.length := by
  intro l
  induction l with
  | nil => intro i x h; simp at h
  | cons hd tl ih =>
    intro i x h
    cases i with
    | zero => simp
    | succ j =>
      simp only [List.getElem?_cons_succ] at h
      have := ih j x h
      simpa using Nat.succ_lt_succ this

theorem dlStepNone {cfg : DlCfg} {s : DlState} {i : Nat}
    (hpc : s.workers[i]? = none) : dlStep cfg s i = s := by
  unfold dlStep; rw [hpc]

theorem dlStepDoneSelf {cfg : DlCfg} {s : DlState} {i : Nat}
    (hpc : s.workers[i]? = some DlPC.done) : dlStep cfg s i = s := by
  unfold dlStep; rw [hpc]

theorem dlStepLoopStart {cfg : DlCfg} {s : DlState} {i : Nat}
    (hpc : s.workers[i]? = some DlPC.loopStart) :
    dlStep cfg s i =
      if s.downloaded ≥ wrap32 cfg.recent then dlSetPC s i DlPC.done
      else dlSetPC s i DlPC.checkStop := by
  unfold dlStep; rw [hpc]

theorem dlStepCheckStop {cfg : DlCfg} {s : DlState} {i : Nat}
    (hpc : s.workers[i]? = some DlPC.checkStop) :
    dlStep cfg s i =
      if s.foundNum ≥ cfg.stopNum then dlSetPC s i DlPC.done
      else dlSetPC s i DlPC.pullStage := by
  unfold dlStep; rw [hpc]

theorem dlStepPullNil {cfg : DlCfg} {s : DlState} {i : Nat}
    (hpc : s.workers[i]? = some DlPC.pullStage) (hit : s.iter = []) :
    dlStep cfg s i = dlSetPC s i DlPC.done := by
  unfold dlStep; rw [hpc, hit]

theorem dlStepPullErr {cfg : DlCfg} {s : DlState} {i : Nat} {e : GoErr}
    {rest : List PullItem}
    (hpc : s.workers[i]? = some DlPC.pullStage) (hit : s.iter = Except.error e :: rest) :
    dlStep cfg s i =
      dlSetPC { s with iter := rest, pullCount := s.pullCount + 1 } i (DlPC.recordErr e) := by
  unfold dlStep; rw [hpc, hit]

theorem dlStepPullOk {cfg : DlCfg} {s : DlState} {i : Nat} {a : PhotoAsset}
    {rest : List PullItem}
    (hpc : s.workers[i]? = some DlPC.pullStage) (hit : s.iter = Except.ok a :: rest) :
    dlStep cfg s i =
      dlSetPC { s with iter := rest, pullCount := s.pullCount + 1 } i (DlPC.statStage a) := by
  unfold dlStep; rw [hpc, hit]

theorem dlStepStatMiss {cfg : DlCfg} {s : DlState} {i : Nat} {a : PhotoAsset}
    (hpc : s.workers[i]? = some (DlPC.statStage a))
    (hfs : fsGet s.fs (a.localPath cfg.outputDir PhotoVersionOriginal) = none) :
    dlStep cfg s i = dlSetPC s i (DlPC.fetchStage a) := by
  unfold dlStep; rw [hpc]; dsimp only; rw [hfs]

theorem dlStepStatDiff {cfg : DlCfg} {s : DlState} {i : Nat} {a : PhotoAsset}
    {f : LocalFile}
    (hpc : s.workers[i]? = some (DlPC.statStage a))
    (hfs : fsGet s.fs (a.localPath cfg.outputDir PhotoVersionOriginal) = some f)
    (hsz : a.size ≠ f.size) :
    dlStep cfg s i = dlSetPC s i (DlPC.fetchStage a) := by
  unfold dlStep; rw [hpc]; dsimp only; rw [hfs]; simp [hsz]

theorem dlStepStatSame {cfg : DlCfg} {s : DlState} {i : Nat} {a : PhotoAsset}
    {f : LocalFile}
    (hpc : s.workers[i]? = some (DlPC.statStage a))
    (hfs : fsGet s.fs (a.localPath cfg.outputDir PhotoVersionOriginal) = some f)
    (hsz : a.size = f.size) :
    dlStep cfg s i = dlSetPC s i DlPC.incFound := by
  unfold dlStep; rw [hpc]; dsimp only; rw [hfs]; simp [hsz]

theorem dlStepFetchErr {cfg : DlCfg} {s : DlState} {i : Nat} {a : PhotoAsset}
    {e : GoErr}
    (hpc : s.workers[i]? = some (DlPC.fetchStage a))
    (hfr : cfg.fetchRes a = some e) :
    dlStep cfg s i =
      dlSetPC { s with fetchCount := s.fetchCount + 1 } i (DlPC.recordErr e) := by
  unfold dlStep; rw [hpc]; dsimp only; rw [hfr]

theorem dlStepFetchOk {cfg : DlCfg} {s : DlState} {i : Nat} {a : PhotoAsset}
    (hpc : s.workers[i]? = some (DlPC.fetchStage a))
    (hfr : cfg.fetchRes a = none) :
    dlStep cfg s i =
      dlSetPC { s with
        fs := fsSet s.fs (a.localPath cfg.outputDir PhotoVersionOriginal) ⟨a.size, none⟩,
        fetchCount := s.fetchCount + 1 } i DlPC.incDownloaded := by
  unfold dlStep; rw [hpc]; dsimp only; rw [hfr]

theorem dlStepRecordErr {cfg : DlCfg} {s : DlState} {i : Nat} {e : GoErr}
    (hpc : s.workers[i]? = some (DlPC.recordErr e)) :
    dlStep cfg s i =
      dlSetPC { s with finalErr := if s.finalErr ≠ none then some e else s.finalErr }
        i DlPC.done := by
  unfold dlStep; rw [hpc]

theorem dlStepIncFound {cfg : DlCfg} {s : DlState} {i : Nat}
    (hpc : s.workers[i]? = some DlPC.incFound) :
    dlStep cfg s i =
      dlSetPC { s with foundNum := wrap64 (s.foundNum + 1) } i DlPC.checkFound := by
  unfold dlStep; rw [hpc]

theorem dlStepCheckFound {cfg : DlCfg} {s : DlState} {i : Nat}
    (hpc : s.workers[i]? = some DlPC.checkFound) :
    dlStep cfg s i =
      if s.foundNum ≥ cfg.stopNum then dlSetPC s i DlPC.done
      else dlSetPC s i DlPC.loopStart := by
  unfold dlStep; rw [hpc]

theorem dlStepIncDownloaded {cfg : DlCfg} {s : DlState} {i : Nat}
    (hpc : s.workers[i]? = some DlPC.incDownloaded) :
    dlStep cfg s i =
      dlSetPC { s with downloaded := wrap32 (s.downloaded + 1) } i DlPC.loopStart := by
  unfold dlStep; rw [hpc]

/-- A worker step either leaves the worker list unchanged or rewrites one
slot: its own. -/
theorem dlStepWorkersShape (cfg : DlCfg) (s : DlState) (i : Nat) :
    (dlStep cfg s i).workers = s.workers ∨
      ∃ pc : DlPC, (dlStep cfg s i).workers = s.workers.set i pc := by
  unfold dlStep
  repeat' split
  all_goals first
    | (left; rfl)
    | (right; exact ⟨_, rfl⟩)

theorem dlStepLength (cfg : DlCfg) (s : DlState) (i : Nat) :
    (dlStep cfg s i).workers.length = s.workers.length := by
  rcases dlStepWorkersShape cfg s i with h | ⟨pc, h⟩
  · rw [h]
  · rw [h, List.length_set]

/-- Frame property: stepping worker `i` does not change any other worker's
program counter. -/
theorem dlStepFrame (cfg : DlCfg) (s : DlState) (i j : Nat) (h : j ≠ i) :
    (dlStep cfg s i).workers[j]? = s.workers[j]? := by
  rcases dlStepWorkersShape cfg s i with hw | ⟨pc, hw⟩
  · rw [hw]
  · rw [hw, listGetSetOther _ i j pc (Ne.symm h)]

/-- A worker that has returned stays returned, whoever steps. -/
theorem dlDoneStable (cfg : DlCfg) (i j : Nat) (s : DlState)
    (h : dlDoneAt i s) : dlDoneAt i (dlStep cfg s j) := by
  by_cases hij : j = i
  · subst hij
    cases hpc : s.workers[j]? with
    | none => rw [dlStepNone hpc]; exact h
    | some pc =>
      have := h pc hpc
      subst this
      rw [dlStepDoneSelf hpc]
      exact h
  · intro pc hpc
    rw [dlStepFrame cfg s j i (fun q => hij q.symm)] at hpc
    exact h pc hpc

theorem dlMeasureSetPC (s : DlState) (i : Nat) (pc : DlPC)
    (h : i < s.workers.length) :
    dlMeasure i (dlSetPC s i pc) = 8 * s.iter.length + dlW pc := by
  unfold dlMeasure dlSetPC
  rw [listGetSetSelf s.workers i pc h]

/-- Each step of a worker that has not returned strictly decreases its
measure. -/
theorem dlMeasureDec (cfg : DlCfg) (i : Nat) (s : DlState)
    (h : ¬ dlDoneAt i s) : dlMeasure i (dlStep cfg s i) < dlMeasure i s := by
  cases hpc : s.workers[i]? with
  | none => exact absurd (fun pc hp => by rw [hpc] at hp; cases hp) h
  | some pc =>
    have hlt : i < s.workers.length := listGetLtLength s.workers i pc hpc
    have hmeas : dlMeasure i s = 8 * s.iter.length + dlW pc := by
      unfold dlMeasure; rw [hpc]
    rw [hmeas]
    cases pc with
    | loopStart =>
      rw [dlStepLoopStart hpc]
      split <;> rw [dlMeasureSetPC _ _ _ hlt] <;> simp [dlW]
    | checkStop =>
      rw [dlStepCheckStop hpc]
      split <;> rw [dlMeasureSetPC _ _ _ hlt] <;> simp [dlW]
    | pullStage =>
      cases hit : s.iter with
      | nil =>
        rw [dlStepPullNil hpc hit, dlMeasureSetPC _ _ _ hlt, hit]
        simp [dlW]
      | cons x rest =>
        cases x with
        | error e =>
          rw [dlStepPullErr hpc hit]
          refine Eq.trans_lt (dlMeasureSetPC _ _ _ ?_) ?_
          · exact hlt
          · dsimp only [dlW, List.length_cons]
            omega
        | ok a =>
          rw [dlStepPullOk hpc hit]
          refine Eq.trans_lt (dlMeasureSetPC _ _ _ ?_) ?_
          · exact hlt
          · dsimp only [dlW, List.length_cons]
            omega
    | statStage a =>
      cases hfs : fsGet s.fs (a.localPath cfg.outputDir PhotoVersionOriginal) with
      | none =>
        rw [dlStepStatMiss hpc hfs, dlMeasureSetPC _ _ _ hlt]
        simp [dlW]
      | some f =>
        by_cases hsz : a.size = f.size
        · rw [dlStepStatSame hpc hfs hsz, dlMeasureSetPC _ _ _ hlt]
          simp [dlW]
        · rw [dlStepStatDiff hpc hfs hsz, dlMeasureSetPC _ _ _ hlt]
          simp [dlW]
    | fetchStage a =>
      cases hfr : cfg.fetchRes a with
      | none =>
        rw [dlStepFetchOk hpc hfr]
        refine Eq.trans_lt (dlMeasureSetPC _ _ _ ?_) ?_
        · exact hlt
        · dsimp only [dlW]; omega
      | some e =>
        rw [dlStepFetchErr hpc hfr]
        refine Eq.trans_lt (dlMeasureSetPC _ _ _ ?_) ?_
        · exact hlt
        · dsimp only [dlW]; omega
    | recordErr e =>
      rw [dlStepRecordErr hpc]
      refine Eq.trans_lt (dlMeasureSetPC _ _ _ ?_) ?_
      · exact hlt
      · dsimp only [dlW]; omega
    | incFound =>
      rw [dlStepIncFound hpc]
      refine Eq.trans_lt (dlMeasureSetPC _ _ _ ?_) ?_
      · exact hlt
      · dsimp only [dlW]; omega
    | checkFound =>
      rw [dlStepCheckFound hpc]
      split <;> rw [dlMeasureSetPC _ _ _ hlt] <;> simp [dlW]
    | incDownloaded =>
      rw [dlStepIncDownloaded hpc]
      refine Eq.trans_lt (dlMeasureSetPC _ _ _ ?_) ?_
      · exact hlt
      · dsimp only [dlW]; omega
    | done => exact absurd (fun pc' hp' => by rw [hpc] at hp'; cases hp'; rfl) h

/-- Every worker-pool run of `downloadPhoto` can finish: some schedule
drives every worker to its return. -/
theorem dlExistsAllDone (cfg : DlCfg) (s : DlState) :
    ∃ sched : List Nat, dlAllDone (dlRun cfg sched s) = true := by
  obtain ⟨sched, h⟩ :=
    existsAllDoneSched (dlStep cfg) dlDoneAt dlMeasure
      (fun i t ht => dlMeasureDec cfg i t ht)
      (fun i j t ht => dlDoneStable cfg i j t ht)
      s.workers.length s
  refine ⟨sched, ?_⟩
  have hlen : (sched.foldl (dlStep cfg) s).workers.length = s.workers.length :=
    schedInvariant (dlStep cfg) (fun t => t.workers.length = s.workers.length)
      (fun t i ht => by
        show (dlStep cfg t i).workers.length = s.workers.length
        rw [dlStepLength]
        exact ht) sched s rfl
  unfold dlAllDone dlRun
  rw [List.all_eq_true]
  intro pc hpc
  obtain ⟨k, hk⟩ := List.mem_iff_getElem?.mp hpc
  have hklt : k < s.workers.length := by
    have := listGetLtLength _ k pc hk
    omega
  have := h k hklt pc hk
  simpa using this

/-! ## Step equations and basic lemmas for the delete machine -/

theorem delStepNone {outputDir : String} {s : DelState} {i : Nat}
    (hpc : s.workers[i]? = none) : delStep outputDir s i = s := by
  unfold delStep; rw [hpc]

theorem delStepDoneSelf {outputDir : String} {s : DelState} {i : Nat}
    (hpc : s.workers[i]? = some DelPC.done) : delStep outputDir s i = s := by
  unfold delStep; rw [hpc]

theorem delStepPullNil {outputDir : String} {s : DelState} {i : Nat}
    (hpc : s.workers[i]? = some DelPC.pullStage) (hit : s.iter = []) :
    delStep outputDir s i = delSetPC s i DelPC.done := by
  unfold delStep; rw [hpc, hit]

theorem delStepPullErr {outputDir : String} {s : DelState} {i : Nat} {e : GoErr}
    {rest : List PullItem}
    (hpc : s.workers[i]? = some DelPC.pullStage) (hit : s.iter = Except.error e :: rest) :
    delStep outputDir s i =
      delSetPC { s with iter := rest, pullCount := s.pullCount + 1 } i
        (DelPC.recordPullErr e) := by
  unfold delStep; rw [hpc, hit]

theorem delStepPullOk {outputDir : String} {s : DelState} {i : Nat} {a : PhotoAsset}
    {rest : List PullItem}
    (hpc : s.workers[i]? = some DelPC.pullStage) (hit : s.iter = Except.ok a :: rest) :
    delStep outputDir s i =
      delSetPC { s with iter := rest, pullCount := s.pullCount + 1 } i
        (DelPC.removeStage a) := by
  unfold delStep; rw [hpc, hit]

theorem delStepRemoveMiss {outputDir : String} {s : DelState} {i : Nat} {a : PhotoAsset}
    (hpc : s.workers[i]? = some (DelPC.removeStage a))
    (hfs : fsGet s.fs (a.localPath outputDir PhotoVersionOriginal) = none) :
    delStep outputDir s i = delSetPC s i DelPC.pullStage := by
  unfold delStep; rw [hpc]; dsimp only; rw [hfs]

theorem delStepRemoveErr {outputDir : String} {s : DelState} {i : Nat} {a : PhotoAsset}
    {f : LocalFile} {e : GoErr}
    (hpc : s.workers[i]? = some (DelPC.removeStage a))
    (hfs : fsGet s.fs (a.localPath outputDir PhotoVersionOriginal) = some f)
    (hre : f.removeErr = some e) :
    delStep outputDir s i = delSetPC s i (DelPC.recordRmErr e) := by
  unfold delStep; rw [hpc]; dsimp only; rw [hfs]; dsimp only; rw [hre]

theorem delStepRemoveOk {outputDir : String} {s : DelState} {i : Nat} {a : PhotoAsset}
    {f : LocalFile}
    (hpc : s.workers[i]? = some (DelPC.removeStage a))
    (hfs : fsGet s.fs (a.localPath outputDir PhotoVersionOriginal) = some f)
    (hre : f.removeErr = none) :
    delStep outputDir s i =
      delSetPC { s with fs := fsRemove s.fs (a.localPath outputDir PhotoVersionOriginal) }
        i DelPC.pullStage := by
  unfold delStep; rw [hpc]; dsimp only; rw [hfs]; dsimp only; rw [hre]

theorem delStepRecordPullErr {outputDir : String} {s : DelState} {i : Nat} {e : GoErr}
    (hpc : s.workers[i]? = some (DelPC.recordPullErr e)) :
    delStep outputDir s i =
      delSetPC { s with finalErr := if s.finalErr = none then some e else s.finalErr }
        i DelPC.done := by
  unfold delStep; rw [hpc]

theorem delStepRecordRmErr {outputDir : String} {s : DelState} {i : Nat} {e : GoErr}
    (hpc : s.workers[i]? = some (DelPC.recordRmErr e)) :
    delStep outputDir s i =
      delSetPC { s with finalErr := if s.finalErr ≠ none then some e else s.finalErr }
        i DelPC.done := by
  unfold delStep; rw [hpc]

theorem delStepWorkersShape (outputDir : String) (s : DelState) (i : Nat) :
    (delStep outputDir s i).workers = s.workers ∨
      ∃ pc : DelPC, (delStep outputDir s i).workers = s.workers.set i pc := by
  unfold delStep
  repeat' split
  all_goals first
    | (left; rfl)
    | (right; exact ⟨_, rfl⟩)

theorem delStepLength (outputDir : String) (s : DelState) (i : Nat) :
    (delStep outputDir s i).workers.length = s.workers.length := by
  rcases delStepWorkersShape outputDir s i with h | ⟨pc, h⟩
  · rw [h]
  · rw [h, List.length_set]

theorem delStepFrame (outputDir : String) (s : DelState) (i j : Nat) (h : j ≠ i) :
    (delStep outputDir s i).workers[j]? = s.workers[j]? := by
  rcases delStepWorkersShape outputDir s i with hw | ⟨pc, hw⟩
  · rw [hw]
  · rw [hw, listGetSetOther _ i j pc (Ne.symm h)]

theorem delDoneStable (outputDir : String) (i j : Nat) (s : DelState)
    (h : delDoneAt i s) : delDoneAt i (delStep outputDir s j) := by
  by_cases hij : j = i
  · subst hij
    cases hpc : s.workers[j]? with
    | none => rw [delStepNone hpc]; exact h
    | some pc =>
      have := h pc hpc
      subst this
      rw [delStepDoneSelf hpc]
      exact h
  · intro pc hpc
    rw [delStepFrame outputDir s j i (fun q => hij q.symm)] at hpc
    exact h pc hpc

theorem delMeasureSetPC (s : DelState) (i : Nat) (pc : DelPC)
    (h : i < s.workers.length) :
    delMeasure i (delSetPC s i pc) = 8 * s.iter.length + delW pc := by
  unfold delMeasure delSetPC
  rw [listGetSetSelf s.workers i pc h]

theorem delMeasureDec (outputDir : String) (i : Nat) (s : DelState)
    (h : ¬ delDoneAt i s) :
    delMeasure i (delStep outputDir s i) < delMeasure i s := by
  cases hpc : s.workers[i]? with
  | none => exact absurd (fun pc hp => by rw [hpc] at hp; cases hp) h
  | some pc =>
    have hlt : i < s.workers.length := listGetLtLength s.workers i pc hpc
    have hmeas : delMeasure i s = 8 * s.iter.length + delW pc := by
      unfold delMeasure; rw [hpc]
    rw [hmeas]
    cases pc with
    | pullStage =>
      cases hit : s.iter with
      | nil =>
        rw [delStepPullNil hpc hit, delMeasureSetPC _ _ _ hlt, hit]
        simp [delW]
      | cons x rest =>
        cases x with
        | error e =>
          rw [delStepPullErr hpc hit]
          refine Eq.trans_lt (delMeasureSetPC _ _ _ ?_) ?_
          · exact hlt
          · dsimp only [delW, List.length_cons]
            omega
        | ok a =>
          rw [delStepPullOk hpc hit]
          refine Eq.trans_lt (delMeasureSetPC _ _ _ ?_) ?_
          · exact hlt
          · dsimp only [delW, List.length_cons]
            omega
    | removeStage a =>
      cases hfs : fsGet s.fs (a.localPath outputDir PhotoVersionOriginal) with
      | none =>
        rw [delStepRemoveMiss hpc hfs, delMeasureSetPC _ _ _ hlt]
        simp [delW]
      | some f =>
        cases hre : f.removeErr with
        | none =>
          rw [delStepRemoveOk hpc hfs hre]
          refine Eq.trans_lt (delMeasureSetPC _ _ _ ?_) ?_
          · exact hlt
          · dsimp only [delW]; omega
        | some e =>
          rw [delStepRemoveErr hpc hfs hre, delMeasureSetPC _ _ _ hlt]
          simp [delW]
    | recordPullErr e =>
      rw [delStepRecordPullErr hpc]
      refine Eq.trans_lt (delMeasureSetPC _ _ _ ?_) ?_
      · exact hlt
      · dsimp only [delW]; omega
    | recordRmErr e =>
      rw [delStepRecordRmErr hpc]
      refine Eq.trans_lt (delMeasureSetPC _ _ _ ?_) ?_
      · exact hlt
      · dsimp only [delW]; omega
    | done => exact absurd (fun pc' hp' => by rw [hpc] at hp'; cases hp'; rfl) h

/-- Every worker-pool run of `autoDeletePhoto` can finish. -/
theorem delExistsAllDone (outputDir : String) (s : DelState) :
    ∃ sched : List Nat, delAllDone (delRun outputDir sched s) = true := by
  obtain ⟨sched, h⟩ :=
    existsAllDoneSched (delStep outputDir) delDoneAt delMeasure
      (fun i t ht => delMeasureDec outputDir i t ht)
      (fun i j t ht => delDoneStable outputDir i j t ht)
      s.workers.length s
  refine ⟨sched, ?_⟩
  unfold delAllDone delRun
  rw [List.all_eq_true]
  intro pc hpc
  obtain ⟨k, hk⟩ := List.mem_iff_getElem?.mp hpc
  have hlen : (sched.foldl (delStep outputDir) s).workers.length = s.workers.length :=
    schedInvariant (delStep outputDir) (fun t => t.workers.length = s.workers.length)
      (fun t i ht => by
        show (delStep outputDir t i).workers.length = s.workers.length
        rw [delStepLength]
        exact ht) sched s rfl
  have hklt : k < s.workers.length := by
    have := listGetLtLength _ k pc hk
    omega
  have := h k hklt pc hk
  simpa using this

/-! ## Claim theorems -/

/-- C1 (code-bug evidence): a `downloadPhoto` run whose only worker hits a
non-exhaustion pull failure — and likewise one whose only fetch
(`DownloadTo`) fails — runs to completion and returns `nil`, not a non-nil
error: the guard `if finalErr != nil { finalErr = err }`
(command_download.go:159,166) can never hold, because `finalErr` starts nil
and those guarded assignments are its only writes, so no worker error is
ever retained. -/
theorem C1_worker_error_never_retained :
    dlResult c1cfgPull [0, 0, 0, 0]
      (dlInit [Except.error (GoErr.other 7)] [] 1) = some none ∧
    dlResult c1cfgFetch [0, 0, 0, 0, 0, 0]
      (dlInit [Except.ok c1asset] [] 1) = some none := by
  constructor <;> decide

/-- C2 (code-bug evidence): an `autoDeletePhoto` run whose only removal
attempt fails with a non-`ErrNotExist` error (e.g. a permission error) runs
to completion and returns `nil`, not that failure: the guard
`if finalErr != nil { finalErr = err }` (command_download.go:237) is
inverted, so a removal failure is never recorded when `finalErr` is still
nil. -/
theorem C2_remove_error_never_retained :
    delResult "./iCloudPhotos" [0, 0, 0]
      (delInit [Except.ok c2asset] c2fs 1) = some none := by
  decide

/-- C4: `downloadPhotoAsset` skips an asset exactly when a local file exists
at the resolved path with size equal to the asset's expected size (returning
`isDownloaded = true`, performing no fetch, leaving the filesystem
unchanged — the caller then counts it as already-present); when the file
exists with a different size, or does not exist, it calls `DownloadTo` on
that path (overwriting on success) and returns `isDownloaded = false`. -/
theorem C4_skip_iff_present_with_equal_size (cfg : DlCfg) (fs : LocalFS)
    (photo : PhotoAsset) :
    (∀ f : LocalFile,
       fsGet fs (photo.localPath cfg.outputDir PhotoVersionOriginal) = some f →
       f.size = photo.size →
       downloadPhotoAssetF cfg fs photo = ⟨true, none, fs, false⟩) ∧
    (∀ f : LocalFile,
       fsGet fs (photo.localPath cfg.outputDir PhotoVersionOriginal) = some f →
       f.size ≠ photo.size →
       (downloadPhotoAssetF cfg fs photo).isDownloaded = false ∧
       (downloadPhotoAssetF cfg fs photo).didFetch = true ∧
       (cfg.fetchRes photo = none →
         downloadPhotoAssetF cfg fs photo =
           ⟨false, none,
            fsSet fs (photo.localPath cfg.outputDir PhotoVersionOriginal)
              ⟨photo.size, none⟩, true⟩)) ∧
    (fsGet fs (photo.localPath cfg.outputDir PhotoVersionOriginal) = none →
       (downloadPhotoAssetF cfg fs photo).isDownloaded = false ∧
       (downloadPhotoAssetF cfg fs photo).didFetch = true ∧
       (cfg.fetchRes photo = none →
         downloadPhotoAssetF cfg fs photo =
           ⟨false, none,
            fsSet fs (photo.localPath cfg.outputDir PhotoVersionOriginal)
              ⟨photo.size, none⟩, true⟩)) := by
  refine ⟨?_, ?_, ?_⟩
  · intro f hf hsz
    simp only [downloadPhotoAssetF, hf]
    simp [hsz]
  · intro f hf hne
    have hc : photo.size ≠ f.size := Ne.symm hne
    cases hfr : cfg.fetchRes photo with
    | none =>
      refine ⟨?_, ?_, fun _ => ?_⟩ <;> simp [downloadPhotoAssetF, hf, hc, hfr]
    | some e =>
      refine ⟨?_, ?_, fun hq => ?_⟩
      · simp [downloadPhotoAssetF, hf, hc, hfr]
      · simp [downloadPhotoAssetF, hf, hc, hfr]
      · cases hq
  · intro hf
    cases hfr : cfg.fetchRes photo with
    | none =>
      refine ⟨?_, ?_, fun _ => ?_⟩ <;> simp [downloadPhotoAssetF, hf, hfr]
    | some e =>
      refine ⟨?_, ?_, fun hq => ?_⟩
      · simp [downloadPhotoAssetF, hf, hfr]
      · simp [downloadPhotoAssetF, hf, hfr]
      · cases hq

/-- Witness for C4 at a concrete instance: file present with equal size is
skipped. -/
theorem C4_skip_iff_present_with_equal_size_witness :
    downloadPhotoAssetF c1cfgPull
      [(c1asset.localPath "./iCloudPhotos" PhotoVersionOriginal, ⟨2048, none⟩)]
      c1asset =
      ⟨true, none,
       [(c1asset.localPath "./iCloudPhotos" PhotoVersionOriginal, ⟨2048, none⟩)],
       false⟩ :=
  (C4_skip_iff_present_with_equal_size c1cfgPull
      [(c1asset.localPath "./iCloudPhotos" PhotoVersionOriginal, ⟨2048, none⟩)]
      c1asset).1 ⟨2048, none⟩ (by decide) (by decide)

/-- C10: once `PhotoService.Albums` has returned a non-empty map, the map is
cached in `_albums`; every later call takes the `len(r._albums) == 0` fast
path, returning the same map with no remote `getFolders` query, so two
consecutive successful calls return identical results. -/
theorem C10_albums_cached_after_success (env env2 : AlbumsEnv)
    (r r2 : PhotoService) (m : List (String × PhotoAlbum)) (b : Bool)
    (hcall : PhotoService.Albums env r = (Except.ok m, r2, b)) (hne : m ≠ []) :
    PhotoService.Albums env2 r2 = (Except.ok m, r2, false) := by
  unfold PhotoService.Albums at hcall ⊢
  by_cases hc : r.albumsCache.length ≠ 0
  · rw [if_pos hc] at hcall
    simp only [Prod.mk.injEq, Except.ok.injEq] at hcall
    obtain ⟨he, hr, _⟩ := hcall
    subst hr
    rw [if_pos (by rw [he]; exact fun q => hne (List.length_eq_zero.mp q)), he]
  · rw [if_neg hc] at hcall
    cases hgf : env.getFolders with
    | error e =>
      simp only [hgf] at hcall
      simp at hcall
    | ok folders =>
      simp only [hgf] at hcall
      simp only [Prod.mk.injEq, Except.ok.injEq] at hcall
      obtain ⟨he, hr, _⟩ := hcall
      subst hr
      rw [if_pos (by simpa [he] using fun q => hne (List.length_eq_zero.mp q))]
      simp [he]

/-- Witness for C10: after a first successful call on an empty cache (remote
returns no extra folders), a second call — even with a failing remote —
returns the same 11-collection map without querying. -/
theorem C10_albums_cached_after_success_witness :
    PhotoService.Albums c10EnvB ⟨buildMetaAlbums⟩ =
      (Except.ok buildMetaAlbums, ⟨buildMetaAlbums⟩, false) :=
  C10_albums_cached_after_success c10EnvA c10EnvB ⟨[]⟩ ⟨buildMetaAlbums⟩
    buildMetaAlbums true rfl (by decide)

theorem c9InvStep (cfg : DlCfg) (iter : List PullItem) (hstop : cfg.stopNum ≤ 0)
    (s : DlState) (i : Nat) (h : c9Inv iter s) : c9Inv iter (dlStep cfg s i) := by
  obtain ⟨h1, h2, h3, h4, h5, h6, h7⟩ := h
  cases hpc : s.workers[i]? with
  | none =>
    rw [dlStepNone hpc]
    exact ⟨h1, h2, h3, h4, h5, h6, h7⟩
  | some pc =>
    rcases h7 i pc hpc with rfl | rfl | rfl
    · rw [dlStepLoopStart hpc]
      split
      · exact ⟨h1, h2, h3, h4, h5, h6,
          pcSetCases _ s.workers i _ (Or.inr (Or.inr rfl)) h7⟩
      · exact ⟨h1, h2, h3, h4, h5, h6,
          pcSetCases _ s.workers i _ (Or.inr (Or.inl rfl)) h7⟩
    · have hc : s.foundNum ≥ cfg.stopNum := by rw [h6]; exact hstop
      rw [dlStepCheckStop hpc, if_pos hc]
      exact ⟨h1, h2, h3, h4, h5, h6,
        pcSetCases _ s.workers i _ (Or.inr (Or.inr rfl)) h7⟩
    · rw [dlStepDoneSelf hpc]
      exact ⟨h1, h2, h3, h4, h5, h6, h7⟩

/-- C9: when `stopNum <= 0`, the check
`atomic.LoadInt64(&foundDownloadedNum) >= stopNum` at the top of the worker
loop succeeds immediately (the counter starts at 0), so every worker of
`downloadPhoto` returns at its first stop-condition checks: under every
schedule no asset is pulled, no fetch is performed, the counters stay zero,
and the run can only complete with a `nil` result — and some schedule does
complete it. -/
theorem C9_nonpositive_stopNum_stops_immediately (cfg : DlCfg)
    (iter : List PullItem) (fs : LocalFS) (threadNum : Nat)
    (hstop : cfg.stopNum ≤ 0) :
    (∀ sched : List Nat,
       (dlRun cfg sched (dlInit iter fs threadNum)).iter = iter ∧
       (dlRun cfg sched (dlInit iter fs threadNum)).pullCount = 0 ∧
       (dlRun cfg sched (dlInit iter fs threadNum)).fetchCount = 0 ∧
       (dlRun cfg sched (dlInit iter fs threadNum)).finalErr = none ∧
       (∀ (i : Nat) (pc : DlPC),
          (dlRun cfg sched (dlInit iter fs threadNum)).workers[i]? = some pc →
          pc = DlPC.loopStart ∨ pc = DlPC.checkStop ∨ pc = DlPC.done)) ∧
    ∃ sched : List Nat, dlResult cfg sched (dlInit iter fs threadNum) = some none := by
  have hinv : ∀ sched : List Nat,
      c9Inv iter (dlRun cfg sched (dlInit iter fs threadNum)) := by
    intro sched
    refine schedInvariant (dlStep cfg) (c9Inv iter)
      (fun s i hs => c9InvStep cfg iter hstop s i hs) sched _ ?_
    exact ⟨rfl, rfl, rfl, rfl, rfl, rfl,
      fun i pc h => Or.inl (listGetReplicate threadNum i DlPC.loopStart pc h)⟩
  constructor
  · intro sched
    obtain ⟨h1, h2, h3, h4, _, _, h7⟩ := hinv sched
    exact ⟨h1, h2, h3, h4, h7⟩
  · obtain ⟨sched, hd⟩ := dlExistsAllDone cfg (dlInit iter fs threadNum)
    refine ⟨sched, ?_⟩
    obtain ⟨_, _, _, h4, _, _, _⟩ := hinv sched
    unfold dlResult
    rw [if_pos hd, h4]

/-- Witness for C9 with two workers and a one-asset iterator. -/
theorem C9_nonpositive_stopNum_stops_immediately_witness :
    (dlRun c9cfg [0, 1, 0] (dlInit c9iter [] 2)).fetchCount = 0 ∧
    ∃ sched : List Nat, dlResult c9cfg sched (dlInit c9iter [] 2) = some none := by
  have h := C9_nonpositive_stopNum_stops_immediately c9cfg c9iter [] 2 (by decide)
  exact ⟨(h.1 [0, 1, 0]).2.2.1, h.2⟩

theorem c6InvStep (outputDir : String) (fs0 : LocalFS) (M : Nat) (s : DelState)
    (i : Nat) (h : c6Inv outputDir fs0 M s) :
    c6Inv outputDir fs0 M (delStep outputDir s i) := by
  obtain ⟨h1, h2, h3, h4, h5, h6⟩ := h
  cases hpc : s.workers[i]? with
  | none =>
    rw [delStepNone hpc]
    exact ⟨h1, h2, h3, h4, h5, h6⟩
  | some pc =>
    cases pc with
    | pullStage =>
      cases hit : s.iter with
      | nil =>
        rw [delStepPullNil hpc hit]
        refine ⟨h1, h2, h3, h4, ?_, ?_⟩
        · exact pcSetCases _ s.workers i _ trivial h5
        · intro j hj
          exact hit
      | cons x rest =>
        obtain ⟨a, hxa, habs⟩ := h4 x (by rw [hit]; exact List.mem_cons_self x rest)
        subst hxa
        rw [delStepPullOk hpc hit]
        refine ⟨h1, h2, ?_, ?_, ?_, ?_⟩
        · show s.pullCount + 1 + rest.length = M
          rw [hit] at h3
          simp only [List.length_cons] at h3
          omega
        · intro y hy
          exact h4 y (by rw [hit]; exact List.mem_cons_of_mem _ hy)
        · exact pcSetCases _ s.workers i _ habs h5
        · intro j hj
          rcases listGetSetCases _ _ _ _ _ hj with he | hold
          · exact DelPC.noConfusion he
          · have hnil := h6 j hold
            rw [hit] at hnil
            cases hnil
    | removeStage a =>
      have habs := h5 i _ hpc
      have hfs : fsGet s.fs (a.localPath outputDir PhotoVersionOriginal) = none := by
        rw [h1]; exact habs
      rw [delStepRemoveMiss hpc hfs]
      refine ⟨h1, h2, h3, h4, pcSetCases _ s.workers i _ trivial h5, ?_⟩
      intro j hj
      rcases listGetSetCases _ _ _ _ _ hj with he | hold
      · exact DelPC.noConfusion he
      · exact h6 j hold
    | recordPullErr e => exact (h5 i _ hpc).elim
    | recordRmErr e => exact (h5 i _ hpc).elim
    | done =>
      rw [delStepDoneSelf hpc]
      exact ⟨h1, h2, h3, h4, h5, h6⟩

/-- C6: an `autoDeletePhoto` run over an iterator of assets whose local
files are all already absent: every `os.Remove` fails with `ErrNotExist`,
which the worker treats as `continue` (back to the next pull, not a return),
the filesystem is never modified, no error is recorded, and a completed run
has consumed the whole iterator with result `nil` — and some schedule
completes it. -/
theorem C6_delete_already_absent_succeeds (outputDir : String)
    (iter : List PullItem) (fs : LocalFS) (threadNum : Nat)
    (hthread : 1 ≤ threadNum)
    (habsent : ∀ x ∈ iter, ∃ a : PhotoAsset, x = Except.ok a ∧
        fsGet fs (a.localPath outputDir PhotoVersionOriginal) = none) :
    (∀ sched : List Nat,
       (delRun outputDir sched (delInit iter fs threadNum)).finalErr = none ∧
       (delRun outputDir sched (delInit iter fs threadNum)).fs = fs ∧
       (delAllDone (delRun outputDir sched (delInit iter fs threadNum)) = true →
          (delRun outputDir sched (delInit iter fs threadNum)).iter = [] ∧
          (delRun outputDir sched (delInit iter fs threadNum)).pullCount =
            iter.length)) ∧
    (∀ (s : DelState) (i : Nat) (a : PhotoAsset),
       s.workers[i]? = some (DelPC.removeStage a) →
       fsGet s.fs (a.localPath outputDir PhotoVersionOriginal) = none →
       delStep outputDir s i = delSetPC s i DelPC.pullStage) ∧
    ∃ sched : List Nat,
      delResult outputDir sched (delInit iter fs threadNum) = some none := by
  have hinv : ∀ sched : List Nat,
      c6Inv outputDir fs iter.length (delRun outputDir sched (delInit iter fs threadNum)) := by
    intro sched
    refine schedInvariant (delStep outputDir) (c6Inv outputDir fs iter.length)
      (fun s i hs => c6InvStep outputDir fs iter.length s i hs) sched _ ?_
    refine ⟨rfl, rfl, by show 0 + iter.length = iter.length; omega, habsent, ?_, ?_⟩
    · intro i pc h
      rw [listGetReplicate threadNum i DelPC.pullStage pc h]
      exact trivial
    · intro i h
      have := listGetReplicate threadNum i DelPC.pullStage _ h
      cases this
  have hlen : ∀ sched : List Nat,
      (delRun outputDir sched (delInit iter fs threadNum)).workers.length = threadNum := by
    intro sched
    have := schedInvariant (delStep outputDir) (fun t => t.workers.length = threadNum)
      (fun t i ht => by
        show (delStep outputDir t i).workers.length = threadNum
        rw [delStepLength]; exact ht) sched (delInit iter fs threadNum)
      (by simp [delInit])
    exact this
  refine ⟨?_, ?_, ?_⟩
  · intro sched
    obtain ⟨h1, h2, h3, _, _, h6⟩ := hinv sched
    refine ⟨h2, h1, ?_⟩
    intro hd
    obtain ⟨pc0, hpc0⟩ := listGetOfLt _ 0 (by rw [hlen sched]; omega)
    have hmem := listGetMem _ 0 pc0 hpc0
    have hdone : pc0 = DelPC.done := by
      have := List.all_eq_true.mp hd pc0 hmem
      simpa using this
    subst hdone
    have hnil := h6 0 hpc0
    refine ⟨hnil, ?_⟩
    rw [hnil] at h3
    simpa using h3
  · exact fun s i a hpc hfs => delStepRemoveMiss hpc hfs
  · obtain ⟨sched, hd⟩ := delExistsAllDone outputDir (delInit iter fs threadNum)
    refine ⟨sched, ?_⟩
    obtain ⟨_, h2, _, _, _, _⟩ := hinv sched
    unfold delResult
    rw [if_pos hd, h2]

/-- Witness for C6: one worker, one remote asset, empty local store. -/
theorem C6_delete_already_absent_succeeds_witness :
    (delRun "./iCloudPhotos" [0, 0] (delInit [Except.ok c2asset] [] 1)).finalErr = none ∧
    ∃ sched : List Nat,
      delResult "./iCloudPhotos" sched (delInit [Except.ok c2asset] [] 1) = some none := by
  have h := C6_delete_already_absent_succeeds "./iCloudPhotos" [Except.ok c2asset] [] 1
    (by decide)
    (by
      intro x hx
      simp only [List.mem_singleton] at hx
      subst hx
      exact ⟨c2asset, rfl, rfl⟩)
  exact ⟨(h.1 [0, 0]).1, h.2.2⟩

theorem c5InvStep (cfg : DlCfg) (assets : List PhotoAsset)
    (hok : ∀ a ∈ assets, cfg.fetchRes a = none)
    (hrec : (assets.length : Int) < cfg.recent) (hrec31 : cfg.recent < 2 ^ 31)
    (hstop : (assets.length : Int) < cfg.stopNum)
    (s : DlState) (i : Nat) (h : c5Inv assets s) :
    c5Inv assets (dlStep cfg s i) := by
  obtain ⟨h1, h2, h3, h4, h5, h6, h7, h8⟩ := h
  cases hpc : s.workers[i]? with
  | none =>
    rw [dlStepNone hpc]
    exact ⟨h1, h2, h3, h4, h5, h6, h7, h8⟩
  | some pc =>
    have hsumGe := sumMapGe c5r s.workers i pc hpc
    have hM : (s.pullCount : Int) ≤ (assets.length : Int) := by exact_mod_cast h2
    cases pc with
    | loopStart =>
      have hnc : ¬ (s.downloaded ≥ wrap32 cfg.recent) := by
        rw [wrap32Id cfg.recent
          (le_trans (Int.natCast_nonneg assets.length) (le_of_lt hrec)) hrec31]
        omega
      rw [dlStepLoopStart hpc, if_neg hnc]
      have hs := sumMapSet c5r s.workers i DlPC.checkStop DlPC.loopStart hpc
      simp only [c5r] at hs
      unfold c5Inv
      dsimp only [dlSetPC]
      refine ⟨h1, h2, by omega, h4, h5, h6,
        pcSetCases _ s.workers i _ trivial h7, ?_⟩
      intro j hj
      rcases listGetSetCases _ _ _ _ _ hj with he | hold
      · exact DlPC.noConfusion he
      · exact h8 j hold
    | checkStop =>
      have hnc : ¬ (s.foundNum ≥ cfg.stopNum) := by omega
      rw [dlStepCheckStop hpc, if_neg hnc]
      have hs := sumMapSet c5r s.workers i DlPC.pullStage DlPC.checkStop hpc
      simp only [c5r] at hs
      unfold c5Inv
      dsimp only [dlSetPC]
      refine ⟨h1, h2, by omega, h4, h5, h6,
        pcSetCases _ s.workers i _ trivial h7, ?_⟩
      intro j hj
      rcases listGetSetCases _ _ _ _ _ hj with he | hold
      · exact DlPC.noConfusion he
      · exact h8 j hold
    | pullStage =>
      cases hdrop : assets.drop s.pullCount with
      | nil =>
        have hnil : s.iter = [] := by rw [h1, hdrop]; rfl
        rw [dlStepPullNil hpc hnil]
        have hs := sumMapSet c5r s.workers i DlPC.done DlPC.pullStage hpc
        simp only [c5r] at hs
        unfold c5Inv
        dsimp only [dlSetPC]
        exact ⟨h1, h2, by omega, h4, h5, h6,
          pcSetCases _ s.workers i _ trivial h7, fun j hj => hnil⟩
      | cons a rest =>
        have hiter : s.iter = Except.ok a :: rest.map Except.ok := by
          rw [h1, hdrop]; rfl
        rw [dlStepPullOk hpc hiter]
        have hplt : s.pullCount < assets.length := by
          by_contra hge
          rw [listDropNil assets s.pullCount (by omega)] at hdrop
          cases hdrop
        have hdrop1 : assets.drop (s.pullCount + 1) = rest :=
          listDropSucc assets s.pullCount a rest hdrop
        have hamem : a ∈ assets := listDropMemHead assets s.pullCount a rest hdrop
        have hs := sumMapSet c5r s.workers i (DlPC.statStage a) DlPC.pullStage hpc
        simp only [c5r] at hs
        unfold c5Inv
        dsimp only [dlSetPC]
        refine ⟨?_, by omega, by omega, h4, h5, h6,
          pcSetCases _ s.workers i _ hamem h7, ?_⟩
        · rw [hdrop1]
        · intro j hj
          rcases listGetSetCases _ _ _ _ _ hj with he | hold
          · exact DlPC.noConfusion he
          · have hq := h8 j hold
            rw [hiter] at hq
            cases hq
    | statStage a =>
      have hOK := h7 i _ hpc
      cases hfs : fsGet s.fs (a.localPath cfg.outputDir PhotoVersionOriginal) with
      | none =>
        rw [dlStepStatMiss hpc hfs]
        have hs := sumMapSet c5r s.workers i (DlPC.fetchStage a) (DlPC.statStage a) hpc
        simp only [c5r] at hs
        unfold c5Inv
        dsimp only [dlSetPC]
        refine ⟨h1, h2, by omega, h4, h5, h6,
          pcSetCases _ s.workers i _ hOK h7, ?_⟩
        intro j hj
        rcases listGetSetCases _ _ _ _ _ hj with he | hold
        · exact DlPC.noConfusion he
        · exact h8 j hold
      | some f =>
        by_cases hsz : a.size = f.size
        · rw [dlStepStatSame hpc hfs hsz]
          have hs := sumMapSet c5r s.workers i DlPC.incFound (DlPC.statStage a) hpc
          simp only [c5r] at hs
          unfold c5Inv
          dsimp only [dlSetPC]
          refine ⟨h1, h2, by omega, h4, h5, h6,
            pcSetCases _ s.workers i _ trivial h7, ?_⟩
          intro j hj
          rcases listGetSetCases _ _ _ _ _ hj with he | hold
          · exact DlPC.noConfusion he
          · exact h8 j hold
        · rw [dlStepStatDiff hpc hfs hsz]
          have hs := sumMapSet c5r s.workers i (DlPC.fetchStage a) (DlPC.statStage a) hpc
          simp only [c5r] at hs
          unfold c5Inv
          dsimp only [dlSetPC]
          refine ⟨h1, h2, by omega, h4, h5, h6,
            pcSetCases _ s.workers i _ hOK h7, ?_⟩
          intro j hj
          rcases listGetSetCases _ _ _ _ _ hj with he | hold
          · exact DlPC.noConfusion he
          · exact h8 j hold
    | fetchStage a =>
      have hOK := h7 i _ hpc
      have hfr : cfg.fetchRes a = none := hok a hOK
      rw [dlStepFetchOk hpc hfr]
      have hs := sumMapSet c5r s.workers i DlPC.incDownloaded (DlPC.fetchStage a) hpc
      simp only [c5r] at hs
      unfold c5Inv
      dsimp only [dlSetPC]
      refine ⟨h1, h2, by omega, h4, h5, h6,
        pcSetCases _ s.workers i _ trivial h7, ?_⟩
      intro j hj
      rcases listGetSetCases _ _ _ _ _ hj with he | hold
      · exact DlPC.noConfusion he
      · exact h8 j hold
    | recordErr e => exact (h7 i _ hpc).elim
    | incFound =>
      simp only [c5r] at hsumGe
      have hw64 : wrap64 (s.foundNum + 1) = s.foundNum + 1 :=
        wrap64Id _ (by omega) (by omega)
      rw [dlStepIncFound hpc]
      have hs := sumMapSet c5r s.workers i DlPC.checkFound DlPC.incFound hpc
      simp only [c5r] at hs
      unfold c5Inv
      dsimp only [dlSetPC]
      rw [hw64]
      refine ⟨h1, h2, by omega, h4, by omega, h6,
        pcSetCases _ s.workers i _ trivial h7, ?_⟩
      intro j hj
      rcases listGetSetCases _ _ _ _ _ hj with he | hold
      · exact DlPC.noConfusion he
      · exact h8 j hold
    | checkFound =>
      have hnc : ¬ (s.foundNum ≥ cfg.stopNum) := by omega
      rw [dlStepCheckFound hpc, if_neg hnc]
      have hs := sumMapSet c5r s.workers i DlPC.loopStart DlPC.checkFound hpc
      simp only [c5r] at hs
      unfold c5Inv
      dsimp only [dlSetPC]
      refine ⟨h1, h2, by omega, h4, h5, h6,
        pcSetCases _ s.workers i _ trivial h7, ?_⟩
      intro j hj
      rcases listGetSetCases _ _ _ _ _ hj with he | hold
      · exact DlPC.noConfusion he
      · exact h8 j hold
    | incDownloaded =>
      simp only [c5r] at hsumGe
      have hw32 : wrap32 (s.downloaded + 1) = s.downloaded + 1 :=
        wrap32Id _ (by omega) (by omega)
      rw [dlStepIncDownloaded hpc]
      have hs := sumMapSet c5r s.workers i DlPC.loopStart DlPC.incDownloaded hpc
      simp only [c5r] at hs
      unfold c5Inv
      dsimp only [dlSetPC]
      rw [hw32]
      refine ⟨h1, h2, by omega, by omega, h5, h6,
        pcSetCases _ s.workers i _ trivial h7, ?_⟩
      intro j hj
      rcases listGetSetCases _ _ _ _ _ hj with he | hold
      · exact DlPC.noConfusion he
      · exact h8 j hold
    | done =>
      rw [dlStepDoneSelf hpc]
      exact ⟨h1, h2, h3, h4, h5, h6, h7, h8⟩

/-- C5: a `downloadPhoto` run over an iterator of exactly M assets with no
pull or fetch failure and both stop caps above M processes exactly M assets:
in any completed run the iterator is exhausted (`ErrPhotosIterateEnd` ended
each worker without becoming an error), M pulls happened, every pulled asset
landed in `downloaded` or `foundDownloadedNum`, and the result is `nil` —
and some schedule completes the run. -/
theorem C5_exactly_M_assets_and_success (cfg : DlCfg) (assets : List PhotoAsset)
    (fs : LocalFS) (threadNum : Nat)
    (hok : ∀ a ∈ assets, cfg.fetchRes a = none)
    (hrec : (assets.length : Int) < cfg.recent) (hrec31 : cfg.recent < 2 ^ 31)
    (hstop : (assets.length : Int) < cfg.stopNum)
    (hthread : 1 ≤ threadNum) :
    (∀ sched : List Nat,
       dlAllDone (dlRun cfg sched (dlInit (assets.map Except.ok) fs threadNum)) = true →
         (dlRun cfg sched (dlInit (assets.map Except.ok) fs threadNum)).finalErr = none ∧
         (dlRun cfg sched (dlInit (assets.map Except.ok) fs threadNum)).pullCount =
           assets.length ∧
         (dlRun cfg sched (dlInit (assets.map Except.ok) fs threadNum)).downloaded +
           (dlRun cfg sched (dlInit (assets.map Except.ok) fs threadNum)).foundNum =
           (assets.length : Int) ∧
         (dlRun cfg sched (dlInit (assets.map Except.ok) fs threadNum)).iter = []) ∧
    ∃ sched : List Nat,
      dlResult cfg sched (dlInit (assets.map Except.ok) fs threadNum) = some none := by
  have hinv : ∀ sched : List Nat,
      c5Inv assets (dlRun cfg sched (dlInit (assets.map Except.ok) fs threadNum)) := by
    intro sched
    refine schedInvariant (dlStep cfg) (c5Inv assets)
      (fun s i hs => c5InvStep cfg assets hok hrec hrec31 hstop s i hs) sched _ ?_
    refine ⟨rfl, by simp [dlInit], ?_, le_refl 0, le_refl 0, rfl, ?_, ?_⟩
    · show (0 : Int) + 0 + ((((List.replicate threadNum DlPC.loopStart)).map c5r).sum : Int) =
        ((0 : Nat) : Int)
      rw [sumMapZero c5r _ (fun x hx => by
        rw [List.eq_of_mem_replicate hx]; rfl)]
      simp
    · intro i pc hp
      rw [listGetReplicate threadNum i DlPC.loopStart pc hp]
      exact trivial
    · intro i hp
      have := listGetReplicate threadNum i DlPC.loopStart _ hp
      cases this
  have hlen : ∀ sched : List Nat,
      (dlRun cfg sched (dlInit (assets.map Except.ok) fs threadNum)).workers.length =
        threadNum := by
    intro sched
    exact schedInvariant (dlStep cfg) (fun t => t.workers.length = threadNum)
      (fun t i ht => by
        show (dlStep cfg t i).workers.length = threadNum
        rw [dlStepLength]; exact ht) sched _ (by simp [dlInit])
  constructor
  · intro sched hd
    obtain ⟨h1, h2, h3, _, _, h6, _, h8⟩ := hinv sched
    have hzero : (((dlRun cfg sched (dlInit (assets.map Except.ok) fs
        threadNum)).workers.map c5r).sum) = 0 := by
      refine sumMapZero c5r _ (fun x hx => ?_)
      have := List.all_eq_true.mp hd x hx
      rw [of_decide_eq_true this]
      rfl
    obtain ⟨pc0, hpc0⟩ := listGetOfLt _ 0 (by rw [hlen sched]; omega)
    have hmem := listGetMem _ 0 pc0 hpc0
    have hdone : pc0 = DlPC.done := of_decide_eq_true (List.all_eq_true.mp hd pc0 hmem)
    subst hdone
    have hnil := h8 0 hpc0
    have hdropnil : assets.drop
        (dlRun cfg sched (dlInit (assets.map Except.ok) fs threadNum)).pullCount = [] := by
      rw [hnil] at h1
      cases hq : assets.drop
          (dlRun cfg sched (dlInit (assets.map Except.ok) fs threadNum)).pullCount with
      | nil => rfl
      | cons y ys =>
        rw [hq] at h1
        cases h1
    have hple : assets.length ≤
        (dlRun cfg sched (dlInit (assets.map Except.ok) fs threadNum)).pullCount := by
      by_contra hq
      have hlt : (dlRun cfg sched (dlInit (assets.map Except.ok) fs
          threadNum)).pullCount < assets.length := by omega
      obtain ⟨x, hx⟩ := listGetOfLt assets _ hlt
      have : assets.drop (dlRun cfg sched (dlInit (assets.map Except.ok) fs
          threadNum)).pullCount ≠ [] := by
        intro hnil2
        have hlen2 := congrArg List.length hnil2
        rw [List.length_drop] at hlen2
        simp at hlen2
        omega
      exact this hdropnil
    have hpeq : (dlRun cfg sched (dlInit (assets.map Except.ok) fs
        threadNum)).pullCount = assets.length := by omega
    refine ⟨h6, hpeq, ?_, hnil⟩
    rw [hzero] at h3
    rw [hpeq] at h3
    omega
  · obtain ⟨sched, hd⟩ := dlExistsAllDone cfg (dlInit (assets.map Except.ok) fs threadNum)
    refine ⟨sched, ?_⟩
    obtain ⟨_, _, _, _, _, h6, _, _⟩ := hinv sched
    unfold dlResult
    rw [if_pos hd, h6]

/-- Witness for C5: one worker, one fresh asset, caps 3 and 5. -/
theorem C5_exactly_M_assets_and_success_witness :
    (dlRun c5cfg (List.replicate 9 0) (dlInit ([c1asset].map Except.ok) [] 1)).pullCount =
      1 ∧
    ∃ sched : List Nat,
      dlResult c5cfg sched (dlInit ([c1asset].map Except.ok) [] 1) = some none := by
  have h := C5_exactly_M_assets_and_success c5cfg [c1asset] [] 1
    (fun a _ => rfl) (by decide) (by decide) (by decide) (by decide)
  exact ⟨(h.1 (List.replicate 9 0) (by decide)).2.1, h.2⟩

theorem dlPastLe : ∀ pc : DlPC, dlPast pc ≤ 1 := by
  intro pc
  cases pc <;> simp [dlPast]

theorem dlIncWLePast : ∀ pc : DlPC, dlIncW pc ≤ dlPast pc := by
  intro pc
  cases pc <;> simp [dlIncW, dlPast]

theorem c3InvStep (cfg : DlCfg) (threadNum : Nat)
    (hthread : 1 ≤ threadNum) (hK0 : 0 ≤ cfg.recent)
    (hKP : cfg.recent + (threadNum : Int) ≤ 2 ^ 31)
    (s : DlState) (i : Nat) (h : c3Inv cfg threadNum s) :
    c3Inv cfg threadNum (dlStep cfg s i) := by
  obtain ⟨h1, h2, h3, h4, h5, h6, h7⟩ := h
  cases hpc : s.workers[i]? with
  | none =>
    rw [dlStepNone hpc]
    exact ⟨h1, h2, h3, h4, h5, h6, h7⟩
  | some pc =>
    have hlt : i < s.workers.length := listGetLtLength s.workers i pc hpc
    have hrec31 : cfg.recent < 2 ^ 31 := by omega
    cases pc with
    | loopStart =>
      rw [dlStepLoopStart hpc]
      split
      · have hsP := sumMapSet dlPast s.workers i DlPC.done DlPC.loopStart hpc
        have hsI := sumMapSet dlIncW s.workers i DlPC.done DlPC.loopStart hpc
        simp only [dlPast, dlIncW] at hsP hsI
        unfold c3Inv
        dsimp only [dlSetPC]
        rw [List.length_set]
        refine ⟨h1, h2, by omega, by omega, h5, h6,
          pcSetCases _ s.workers i _ trivial h7⟩
      · rename_i hcond
        rw [wrap32Id cfg.recent hK0 hrec31] at hcond
        have hpastBound := sumMapLeLengthSub dlPast dlPastLe s.workers i
          DlPC.loopStart hpc rfl
        rw [h1] at hpastBound
        have hsP := sumMapSet dlPast s.workers i DlPC.checkStop DlPC.loopStart hpc
        have hsI := sumMapSet dlIncW s.workers i DlPC.checkStop DlPC.loopStart hpc
        simp only [dlPast, dlIncW] at hsP hsI
        unfold c3Inv
        dsimp only [dlSetPC]
        rw [List.length_set]
        refine ⟨h1, h2, by omega, by omega, h5, h6,
          pcSetCases _ s.workers i _ trivial h7⟩
    | checkStop =>
      rw [dlStepCheckStop hpc]
      have hsPd := sumMapSet dlPast s.workers i DlPC.done DlPC.checkStop hpc
      have hsId := sumMapSet dlIncW s.workers i DlPC.done DlPC.checkStop hpc
      have hsPp := sumMapSet dlPast s.workers i DlPC.pullStage DlPC.checkStop hpc
      have hsIp := sumMapSet dlIncW s.workers i DlPC.pullStage DlPC.checkStop hpc
      simp only [dlPast, dlIncW] at hsPd hsId hsPp hsIp
      split
      · unfold c3Inv
        dsimp only [dlSetPC]
        rw [List.length_set]
        exact ⟨h1, h2, by omega, by omega, h5, h6,
          pcSetCases _ s.workers i _ trivial h7⟩
      · unfold c3Inv
        dsimp only [dlSetPC]
        rw [List.length_set]
        exact ⟨h1, h2, by omega, by omega, h5, h6,
          pcSetCases _ s.workers i _ trivial h7⟩
    | pullStage =>
      cases hit : s.iter with
      | nil =>
        rw [dlStepPullNil hpc hit]
        have hsP := sumMapSet dlPast s.workers i DlPC.done DlPC.pullStage hpc
        have hsI := sumMapSet dlIncW s.workers i DlPC.done DlPC.pullStage hpc
        simp only [dlPast, dlIncW] at hsP hsI
        unfold c3Inv
        dsimp only [dlSetPC]
        rw [List.length_set]
        exact ⟨h1, h2, by omega, by omega, h5, h6,
          pcSetCases _ s.workers i _ trivial h7⟩
      | cons x rest =>
        obtain ⟨a, hxa, hfr⟩ := h6 x (by rw [hit]; exact List.mem_cons_self x rest)
        subst hxa
        rw [dlStepPullOk hpc hit]
        have hsP := sumMapSet dlPast s.workers i (DlPC.statStage a) DlPC.pullStage hpc
        have hsI := sumMapSet dlIncW s.workers i (DlPC.statStage a) DlPC.pullStage hpc
        simp only [dlPast, dlIncW] at hsP hsI
        unfold c3Inv
        dsimp only [dlSetPC]
        rw [List.length_set]
        refine ⟨h1, h2, by omega, by omega, h5, ?_,
          pcSetCases _ s.workers i _ hfr h7⟩
        intro y hy
        exact h6 y (by rw [hit]; exact List.mem_cons_of_mem _ hy)
    | statStage a =>
      have hOK := h7 i _ hpc
      cases hfs : fsGet s.fs (a.localPath cfg.outputDir PhotoVersionOriginal) with
      | none =>
        rw [dlStepStatMiss hpc hfs]
        have hsP := sumMapSet dlPast s.workers i (DlPC.fetchStage a) (DlPC.statStage a) hpc
        have hsI := sumMapSet dlIncW s.workers i (DlPC.fetchStage a) (DlPC.statStage a) hpc
        simp only [dlPast, dlIncW] at hsP hsI
        unfold c3Inv
        dsimp only [dlSetPC]
        rw [List.length_set]
        exact ⟨h1, h2, by omega, by omega, h5, h6,
          pcSetCases _ s.workers i _ hOK h7⟩
      | some f =>
        by_cases hsz : a.size = f.size
        · rw [dlStepStatSame hpc hfs hsz]
          have hsP := sumMapSet dlPast s.workers i DlPC.incFound (DlPC.statStage a) hpc
          have hsI := sumMapSet dlIncW s.workers i DlPC.incFound (DlPC.statStage a) hpc
          simp only [dlPast, dlIncW] at hsP hsI
          unfold c3Inv
          dsimp only [dlSetPC]
          rw [List.length_set]
          exact ⟨h1, h2, by omega, by omega, h5, h6,
            pcSetCases _ s.workers i _ trivial h7⟩
        · rw [dlStepStatDiff hpc hfs hsz]
          have hsP := sumMapSet dlPast s.workers i (DlPC.fetchStage a) (DlPC.statStage a) hpc
          have hsI := sumMapSet dlIncW s.workers i (DlPC.fetchStage a) (DlPC.statStage a) hpc
          simp only [dlPast, dlIncW] at hsP hsI
          unfold c3Inv
          dsimp only [dlSetPC]
          rw [List.length_set]
          exact ⟨h1, h2, by omega, by omega, h5, h6,
            pcSetCases _ s.workers i _ hOK h7⟩
    | fetchStage a =>
      have hfr : cfg.fetchRes a = none := h7 i _ hpc
      rw [dlStepFetchOk hpc hfr]
      have hsP := sumMapSet dlPast s.workers i DlPC.incDownloaded (DlPC.fetchStage a) hpc
      have hsI := sumMapSet dlIncW s.workers i DlPC.incDownloaded (DlPC.fetchStage a) hpc
      simp only [dlPast, dlIncW] at hsP hsI
      unfold c3Inv
      dsimp only [dlSetPC]
      rw [List.length_set]
      exact ⟨h1, h2, by omega, by omega, h5, h6,
        pcSetCases _ s.workers i _ trivial h7⟩
    | recordErr e => exact (h7 i _ hpc).elim
    | incFound =>
      rw [dlStepIncFound hpc]
      have hsP := sumMapSet dlPast s.workers i DlPC.checkFound DlPC.incFound hpc
      have hsI := sumMapSet dlIncW s.workers i DlPC.checkFound DlPC.incFound hpc
      simp only [dlPast, dlIncW] at hsP hsI
      unfold c3Inv
      dsimp only [dlSetPC]
      rw [List.length_set]
      exact ⟨h1, h2, by omega, by omega, h5, h6,
        pcSetCases _ s.workers i _ trivial h7⟩
    | checkFound =>
      rw [dlStepCheckFound hpc]
      have hsPd := sumMapSet dlPast s.workers i DlPC.done DlPC.checkFound hpc
      have hsId := sumMapSet dlIncW s.workers i DlPC.done DlPC.checkFound hpc
      have hsPl := sumMapSet dlPast s.workers i DlPC.loopStart DlPC.checkFound hpc
      have hsIl := sumMapSet dlIncW s.workers i DlPC.loopStart DlPC.checkFound hpc
      simp only [dlPast, dlIncW] at hsPd hsId hsPl hsIl
      split
      · unfold c3Inv
        dsimp only [dlSetPC]
        rw [List.length_set]
        exact ⟨h1, h2, by omega, by omega, h5, h6,
          pcSetCases _ s.workers i _ trivial h7⟩
      · unfold c3Inv
        dsimp only [dlSetPC]
        rw [List.length_set]
        exact ⟨h1, h2, by omega, by omega, h5, h6,
          pcSetCases _ s.workers i _ trivial h7⟩
    | incDownloaded =>
      have hpast := sumMapGe dlPast s.workers i DlPC.incDownloaded hpc
      simp only [dlPast] at hpast
      have hw32 : wrap32 (s.downloaded + 1) = s.downloaded + 1 :=
        wrap32Id _ (by omega) (by omega)
      rw [dlStepIncDownloaded hpc]
      have hsP := sumMapSet dlPast s.workers i DlPC.loopStart DlPC.incDownloaded hpc
      have hsI := sumMapSet dlIncW s.workers i DlPC.loopStart DlPC.incDownloaded hpc
      simp only [dlPast, dlIncW] at hsP hsI
      unfold c3Inv
      dsimp only [dlSetPC]
      rw [List.length_set, hw32]
      exact ⟨h1, by omega, by omega, by omega, h5, h6,
        pcSetCases _ s.workers i _ trivial h7⟩
    | done =>
      rw [dlStepDoneSelf hpc]
      exact ⟨h1, h2, h3, h4, h5, h6, h7⟩

/-- C3: `downloadPhoto` with the effective `recent` cap K over an iterator
of more than K fresh assets, none locally present and none failing: under
every schedule at most `K + threadNum - 1` `DownloadTo` calls ever happen
(the slack is the benign race between the gate check at line 147 and the
increment at line 176), any completed run has a `nil` result, and some
schedule completes the run. -/
theorem C3_fetches_bounded_by_cap_plus_slack (cfg : DlCfg)
    (iter : List PullItem) (fs : LocalFS) (threadNum : Nat)
    (hthread : 1 ≤ threadNum) (hK0 : 0 ≤ cfg.recent)
    (hKP : cfg.recent + (threadNum : Int) ≤ 2 ^ 31)
    (hmore : cfg.recent < (iter.length : Int))
    (hiter : ∀ x ∈ iter, ∃ a : PhotoAsset, x = Except.ok a ∧
        cfg.fetchRes a = none ∧
        fsGet fs (a.localPath cfg.outputDir PhotoVersionOriginal) = none) :
    (∀ sched : List Nat,
       ((dlRun cfg sched (dlInit iter fs threadNum)).fetchCount : Int) ≤
         cfg.recent + threadNum - 1 ∧
       (dlAllDone (dlRun cfg sched (dlInit iter fs threadNum)) = true →
         (dlRun cfg sched (dlInit iter fs threadNum)).finalErr = none)) ∧
    ∃ sched : List Nat, dlResult cfg sched (dlInit iter fs threadNum) = some none := by
  have hinv : ∀ sched : List Nat,
      c3Inv cfg threadNum (dlRun cfg sched (dlInit iter fs threadNum)) := by
    intro sched
    refine schedInvariant (dlStep cfg) (c3Inv cfg threadNum)
      (fun s i hs => c3InvStep cfg threadNum hthread hK0 hKP s i hs) sched _ ?_
    unfold c3Inv
    dsimp only [dlInit]
    refine ⟨by simp, le_refl 0, ?_, ?_, rfl, ?_, ?_⟩
    · rw [sumMapZero dlPast _ (fun x hx => by rw [List.eq_of_mem_replicate hx]; rfl)]
      push_cast
      omega
    · rw [sumMapZero dlIncW _ (fun x hx => by rw [List.eq_of_mem_replicate hx]; rfl)]
      simp
    · intro x hx
      obtain ⟨a, hxa, hfr, _⟩ := hiter x hx
      exact ⟨a, hxa, hfr⟩
    · intro i pc hp
      rw [listGetReplicate threadNum i DlPC.loopStart pc hp]
      exact trivial
  constructor
  · intro sched
    obtain ⟨h1, h2, h3, h4, h5, _, _⟩ := hinv sched
    refine ⟨?_, fun _ => h5⟩
    have hmono := sumMapMono dlIncW dlPast dlIncWLePast
      (dlRun cfg sched (dlInit iter fs threadNum)).workers
    omega
  · obtain ⟨sched, hd⟩ := dlExistsAllDone cfg (dlInit iter fs threadNum)
    refine ⟨sched, ?_⟩
    obtain ⟨_, _, _, _, h5, _, _⟩ := hinv sched
    unfold dlResult
    rw [if_pos hd, h5]

/-- Witness for C3: cap 1, two fresh assets, one worker. -/
theorem C3_fetches_bounded_by_cap_plus_slack_witness :
    ((dlRun c3cfg [0, 0, 0, 0, 0, 0, 0]
        (dlInit [Except.ok c1asset, Except.ok c3assetB] [] 1)).fetchCount : Int) ≤
      c3cfg.recent + 1 - 1 ∧
    ∃ sched : List Nat,
      dlResult c3cfg sched (dlInit [Except.ok c1asset, Except.ok c3assetB] [] 1) =
        some none := by
  have h := C3_fetches_bounded_by_cap_plus_slack c3cfg
    [Except.ok c1asset, Except.ok c3assetB] [] 1 (by decide) (by decide) (by decide)
    (by decide)
    (by
      intro x hx
      simp only [List.mem_cons, List.not_mem_nil, or_false] at hx
      rcases hx with rfl | rfl
      · exact ⟨c1asset, rfl, rfl, rfl⟩
      · exact ⟨c3assetB, rfl, rfl, rfl⟩)
  exact ⟨(h.1 [0, 0, 0, 0, 0, 0, 0]).1, h.2⟩

/-- C7: the concrete scenario — parallelism 1, iterator yields A (2MB, not
present) then B (1MB, present at 1MB), caps unreachable: every completed
schedule fetches exactly one asset (A, whose file then exists at its
resolved path), skips B (its file is untouched), ends with
`downloaded = 1` and `foundDownloadedNum = 1`, and returns `nil`; the
15-step schedule completes the run. -/
theorem C7_concrete_two_asset_scenario :
    (∀ sched : List Nat,
       dlAllDone (dlRun c7cfg sched c7init) = true →
         (dlRun c7cfg sched c7init).finalErr = none ∧
         (dlRun c7cfg sched c7init).downloaded = 1 ∧
         (dlRun c7cfg sched c7init).foundNum = 1 ∧
         (dlRun c7cfg sched c7init).fetchCount = 1 ∧
         (dlRun c7cfg sched c7init).pullCount = 2 ∧
         fsGet (dlRun c7cfg sched c7init).fs
           (c7assetA.localPath "./iCloudPhotos" PhotoVersionOriginal) =
           some ⟨2097152, none⟩ ∧
         fsGet (dlRun c7cfg sched c7init).fs
           (c7assetB.localPath "./iCloudPhotos" PhotoVersionOriginal) =
           some ⟨1048576, none⟩) ∧
    dlResult c7cfg (List.replicate 15 0) c7init = some none := by
  have hstep0 : ∀ s ∈ c7chain, dlStep c7cfg s 0 ∈ c7chain := by decide
  have hlen1 : ∀ s ∈ c7chain, s.workers.length = 1 := by decide
  have hmem : ∀ sched : List Nat, dlRun c7cfg sched c7init ∈ c7chain := by
    intro sched
    refine schedInvariant (dlStep c7cfg) (fun s => s ∈ c7chain) ?_ sched c7init
      (by decide)
    intro s i hs
    match i with
    | 0 => exact hstep0 s hs
    | n + 1 =>
      rw [dlStepNone (List.getElem?_eq_none (by rw [hlen1 s hs]; omega))]
      exact hs
  constructor
  · intro sched hd
    have hfields : ∀ s ∈ c7chain, dlAllDone s = true →
        s.finalErr = none ∧ s.downloaded = 1 ∧ s.foundNum = 1 ∧
        s.fetchCount = 1 ∧ s.pullCount = 2 ∧
        fsGet s.fs (c7assetA.localPath "./iCloudPhotos" PhotoVersionOriginal) =
          some ⟨2097152, none⟩ ∧
        fsGet s.fs (c7assetB.localPath "./iCloudPhotos" PhotoVersionOriginal) =
          some ⟨1048576, none⟩ := by decide
    exact hfields _ (hmem sched) hd
  · decide

set_option maxRecDepth 8192 in
/-- Witness for C7 at the completing 15-step schedule. -/
theorem C7_concrete_two_asset_scenario_witness :
    (dlRun c7cfg (List.replicate 15 0) c7init).downloaded = 1 ∧
    (dlRun c7cfg (List.replicate 15 0) c7init).foundNum = 1 := by
  have h := (C7_concrete_two_asset_scenario.1 (List.replicate 15 0)) (by decide)
  exact ⟨h.2.1, h.2.2.1⟩

/-- C8: both worker pools return their result only after every worker has
hit `wait.Done()` (`wait.Wait()` barrier); a worker's step never changes a
sibling's program counter; and a worker transitions to its return only
because of its own recorded error, the shared iterator being exhausted, or a
stop-condition counter having crossed its threshold — never because a
sibling terminated. -/
theorem C8_barrier_join_and_no_forced_termination :
    (∀ (cfg : DlCfg) (sched : List Nat) (s : DlState) (r : Option GoErr),
        dlResult cfg sched s = some r → dlAllDone (dlRun cfg sched s) = true) ∧
    (∀ (cfg : DlCfg) (s : DlState) (i j : Nat), j ≠ i →
        (dlStep cfg s i).workers[j]? = s.workers[j]?) ∧
    (∀ (cfg : DlCfg) (s : DlState) (i : Nat) (pc : DlPC),
        s.workers[i]? = some pc → pc ≠ DlPC.done →
        (dlStep cfg s i).workers[i]? = some DlPC.done →
        (∃ e : GoErr, pc = DlPC.recordErr e) ∨ s.iter = [] ∨
          s.downloaded ≥ wrap32 cfg.recent ∨ s.foundNum ≥ cfg.stopNum) ∧
    (∀ (outputDir : String) (sched : List Nat) (s : DelState) (r : Option GoErr),
        delResult outputDir sched s = some r →
        delAllDone (delRun outputDir sched s) = true) ∧
    (∀ (outputDir : String) (s : DelState) (i j : Nat), j ≠ i →
        (delStep outputDir s i).workers[j]? = s.workers[j]?) ∧
    (∀ (outputDir : String) (s : DelState) (i : Nat) (pc : DelPC),
        s.workers[i]? = some pc → pc ≠ DelPC.done →
        (delStep outputDir s i).workers[i]? = some DelPC.done →
        (∃ e : GoErr, pc = DelPC.recordPullErr e ∨ pc = DelPC.recordRmErr e) ∨
          s.iter = []) := by
  refine ⟨?_, ?_, ?_, ?_, ?_, ?_⟩
  · intro cfg sched s r h
    by_cases hd : dlAllDone (dlRun cfg sched s) = true
    · exact hd
    · simp only [dlResult] at h
      rw [if_neg hd] at h
      cases h
  · exact fun cfg s i j hij => dlStepFrame cfg s i j hij
  · intro cfg s i pc hpc hne h3
    have hlt : i < s.workers.length := listGetLtLength s.workers i pc hpc
    cases pc with
    | loopStart =>
      rw [dlStepLoopStart hpc] at h3
      split at h3
      · rename_i hcond
        exact Or.inr (Or.inr (Or.inl hcond))
      · have hx : (dlSetPC s i DlPC.checkStop).workers[i]? = some DlPC.checkStop :=
          listGetSetSelf s.workers i DlPC.checkStop hlt
        rw [hx] at h3
        simp at h3
    | checkStop =>
      rw [dlStepCheckStop hpc] at h3
      split at h3
      · rename_i hcond
        exact Or.inr (Or.inr (Or.inr hcond))
      · have hx : (dlSetPC s i DlPC.pullStage).workers[i]? = some DlPC.pullStage :=
          listGetSetSelf s.workers i DlPC.pullStage hlt
        rw [hx] at h3
        simp at h3
    | pullStage =>
      cases hit : s.iter with
      | nil => exact Or.inr (Or.inl rfl)
      | cons x rest =>
        cases x with
        | error e =>
          rw [dlStepPullErr hpc hit] at h3
          have hx : (dlSetPC { s with iter := rest, pullCount := s.pullCount + 1 } i
              (DlPC.recordErr e)).workers[i]? = some (DlPC.recordErr e) :=
            listGetSetSelf s.workers i (DlPC.recordErr e) hlt
          rw [hx] at h3
          simp at h3
        | ok a =>
          rw [dlStepPullOk hpc hit] at h3
          have hx : (dlSetPC { s with iter := rest, pullCount := s.pullCount + 1 } i
              (DlPC.statStage a)).workers[i]? = some (DlPC.statStage a) :=
            listGetSetSelf s.workers i (DlPC.statStage a) hlt
          rw [hx] at h3
          simp at h3
    | statStage a =>
      cases hfs : fsGet s.fs (a.localPath cfg.outputDir PhotoVersionOriginal) with
      | none =>
        rw [dlStepStatMiss hpc hfs] at h3
        have hx : (dlSetPC s i (DlPC.fetchStage a)).workers[i]? =
            some (DlPC.fetchStage a) :=
          listGetSetSelf s.workers i (DlPC.fetchStage a) hlt
        rw [hx] at h3
        simp at h3
      | some f =>
        by_cases hsz : a.size = f.size
        · rw [dlStepStatSame hpc hfs hsz] at h3
          have hx : (dlSetPC s i DlPC.incFound).workers[i]? = some DlPC.incFound :=
            listGetSetSelf s.workers i DlPC.incFound hlt
          rw [hx] at h3
          simp at h3
        · rw [dlStepStatDiff hpc hfs hsz] at h3
          have hx : (dlSetPC s i (DlPC.fetchStage a)).workers[i]? =
              some (DlPC.fetchStage a) :=
            listGetSetSelf s.workers i (DlPC.fetchStage a) hlt
          rw [hx] at h3
          simp at h3
    | fetchStage a =>
      cases hfr : cfg.fetchRes a with
      | none =>
        rw [dlStepFetchOk hpc hfr] at h3
        have hx : (dlSetPC { s with
            fs := fsSet s.fs (a.localPath cfg.outputDir PhotoVersionOriginal)
              ⟨a.size, none⟩,
            fetchCount := s.fetchCount + 1 } i DlPC.incDownloaded).workers[i]? =
            some DlPC.incDownloaded :=
          listGetSetSelf s.workers i DlPC.incDownloaded hlt
        rw [hx] at h3
        simp at h3
      | some e =>
        rw [dlStepFetchErr hpc hfr] at h3
        have hx : (dlSetPC { s with fetchCount := s.fetchCount + 1 } i
            (DlPC.recordErr e)).workers[i]? = some (DlPC.recordErr e) :=
          listGetSetSelf s.workers i (DlPC.recordErr e) hlt
        rw [hx] at h3
        simp at h3
    | recordErr e => exact Or.inl ⟨e, rfl⟩
    | incFound =>
      rw [dlStepIncFound hpc] at h3
      have hx : (dlSetPC { s with foundNum := wrap64 (s.foundNum + 1) } i
          DlPC.checkFound).workers[i]? = some DlPC.checkFound :=
        listGetSetSelf s.workers i DlPC.checkFound hlt
      rw [hx] at h3
      simp at h3
    | checkFound =>
      rw [dlStepCheckFound hpc] at h3
      split at h3
      · rename_i hcond
        exact Or.inr (Or.inr (Or.inr hcond))
      · have hx : (dlSetPC s i DlPC.loopStart).workers[i]? = some DlPC.loopStart :=
          listGetSetSelf s.workers i DlPC.loopStart hlt
        rw [hx] at h3
        simp at h3
    | incDownloaded =>
      rw [dlStepIncDownloaded hpc] at h3
      have hx : (dlSetPC { s with downloaded := wrap32 (s.downloaded + 1) } i
          DlPC.loopStart).workers[i]? = some DlPC.loopStart :=
        listGetSetSelf s.workers i DlPC.loopStart hlt
      rw [hx] at h3
      simp at h3
    | done => exact absurd rfl hne
  · intro outputDir sched s r h
    by_cases hd : delAllDone (delRun outputDir sched s) = true
    · exact hd
    · simp only [delResult] at h
      rw [if_neg hd] at h
      cases h
  · exact fun outputDir s i j hij => delStepFrame outputDir s i j hij
  · intro outputDir s i pc hpc hne h3
    have hlt : i < s.workers.length := listGetLtLength s.workers i pc hpc
    cases pc with
    | pullStage =>
      cases hit : s.iter with
      | nil => exact Or.inr rfl
      | cons x rest =>
        cases x with
        | error e =>
          rw [delStepPullErr hpc hit] at h3
          have hx : (delSetPC { s with iter := rest, pullCount := s.pullCount + 1 } i
              (DelPC.recordPullErr e)).workers[i]? = some (DelPC.recordPullErr e) :=
            listGetSetSelf s.workers i (DelPC.recordPullErr e) hlt
          rw [hx] at h3
          simp at h3
        | ok a =>
          rw [delStepPullOk hpc hit] at h3
          have hx : (delSetPC { s with iter := rest, pullCount := s.pullCount + 1 } i
              (DelPC.removeStage a)).workers[i]? = some (DelPC.removeStage a) :=
            listGetSetSelf s.workers i (DelPC.removeStage a) hlt
          rw [hx] at h3
          simp at h3
    | removeStage a =>
      cases hfs : fsGet s.fs (a.localPath outputDir PhotoVersionOriginal) with
      | none =>
        rw [delStepRemoveMiss hpc hfs] at h3
        have hx : (delSetPC s i DelPC.pullStage).workers[i]? = some DelPC.pullStage :=
          listGetSetSelf s.workers i DelPC.pullStage hlt
        rw [hx] at h3
        simp at h3
      | some f =>
        cases hre : f.removeErr with
        | none =>
          rw [delStepRemoveOk hpc hfs hre] at h3
          have hx : (delSetPC { s with
              fs := fsRemove s.fs (a.localPath outputDir PhotoVersionOriginal) } i
              DelPC.pullStage).workers[i]? = some DelPC.pullStage :=
            listGetSetSelf s.workers i DelPC.pullStage hlt
          rw [hx] at h3
          simp at h3
        | some e =>
          rw [delStepRemoveErr hpc hfs hre] at h3
          have hx : (delSetPC s i (DelPC.recordRmErr e)).workers[i]? =
              some (DelPC.recordRmErr e) :=
            listGetSetSelf s.workers i (DelPC.recordRmErr e) hlt
          rw [hx] at h3
          simp at h3
    | recordPullErr e => exact Or.inl ⟨e, Or.inl rfl⟩
    | recordRmErr e => exact Or.inl ⟨e, Or.inr rfl⟩
    | done => exact absurd rfl hne

/-- Witness for C8: stepping worker 0 (about to record its own error) leaves
worker 1's program counter alone, and worker 0's transition to done is
explained by its own recorded error. -/
theorem C8_barrier_join_and_no_forced_termination_witness :
    (dlStep c1cfgPull c8s 0).workers[1]? = c8s.workers[1]? ∧
    ((∃ e : GoErr, DlPC.recordErr (GoErr.other 1) = DlPC.recordErr e) ∨
      c8s.iter = [] ∨ c8s.downloaded ≥ wrap32 c1cfgPull.recent ∨
      c8s.foundNum ≥ c1cfgPull.stopNum) := by
  have h := C8_barrier_join_and_no_forced_termination
  exact ⟨h.2.1 c1cfgPull c8s 0 1 (by decide),
    h.2.2.1 c1cfgPull c8s 0 (DlPC.recordErr (GoErr.other 1)) (by decide) (by decide)
      (by decide)⟩

end Icloudgo
